import Mathlib

/-!
# Ontology editor: graph model, action applier, hierarchy builder, exporters

A shallow embedding of the core of the ontology-editor frontend:

* the shared graph data model (`types.ts`: `Node`, `Edge`);
* `applyActions` and `extractActions` from `ChatPanel.tsx`;
* `buildHierarchy` from `TriplesView.tsx`;
* `generateTurtle` from the Turtle export module.

JavaScript conventions are translated as follows: optional (`?:`) string
fields become `Option String`; the JS truthiness test `!s` on an optional
string field is `Option` emptiness or the empty string; `Array.prototype.find`
is `List.find?`; `Array.prototype.filter` is `List.filter`;
`Array.prototype.push` appends on a copied list.  Nondeterministic id
generation (`Date.now()` / `Math.random()` interpolation) is modelled by an
abstract id supply `ids : Nat → String` together with a counter that is
advanced once per generated id.
-/

namespace OntologyEditor

/-- `NodeData` from `types.ts`: `{ label?: string }` (extra index-signature
fields are never read by the embedded code). -/
structure NodeData where
  label : Option String := none
deriving DecidableEq, Repr

/-- `Node` from `types.ts`: `{ id: string; type?: string; data: NodeData }`. -/
structure Node where
  id : String
  type : Option String := none
  data : NodeData
deriving DecidableEq, Repr

/-- `Edge` from `types.ts`:
`{ id; source; target?; label?; type?; datatype? }`. -/
structure Edge where
  id : String
  source : String
  target : Option String := none
  label : Option String := none
  type : Option String := none
  datatype : Option String := none
deriving DecidableEq, Repr

/-- `ChatAction` from `ChatPanel.tsx`.  The `action` discriminator is kept as
a plain string; the applier's `switch` ignores unrecognized values, which the
string `match` below mirrors. -/
structure ChatAction where
  action : String
  label : Option String := none
  parent : Option String := none
  source : Option String := none
  target : Option String := none
  «class» : Option String := none
  property : Option String := none
deriving DecidableEq, Repr

/-- JS truthiness of an optional string field: `!x` is true exactly for
`undefined` and `""`. -/
def strFalsy : Option String → Bool
  | none => true
  | some s => s == ""

/-- `xs.find(n => n.data.label === l)` for a known string `l`
(a `===` against an `undefined` label is false). -/
def findNodeByLabel (nodes : List Node) (l : String) : Option Node :=
  nodes.find? (fun n => n.data.label == some l)

/-- The working state of `applyActions`: the `newNodes` / `newEdges` local
arrays plus the id-generation counter. -/
structure ApplyState where
  nodes : List Node
  edges : List Edge
  idCounter : Nat
deriving Repr

/-- `case 'add_node'` of `applyActions` (`ChatPanel.tsx`). -/
def applyAddNode (ids : Nat → String) (st : ApplyState) (a : ChatAction) :
    ApplyState :=
  if strFalsy a.label then st else
  match a.label with
  | none => st
  | some l =>
    match findNodeByLabel st.nodes l with
    | some _ => st
    | none =>
      let newNode : Node :=
        { id := ids st.idCounter, type := some "default", data := { label := some l } }
      let nodes1 := st.nodes ++ [newNode]
      if strFalsy a.parent then
        { nodes := nodes1, edges := st.edges, idCounter := st.idCounter + 1 }
      else
        match a.parent with
        | none => { nodes := nodes1, edges := st.edges, idCounter := st.idCounter + 1 }
        | some p =>
          match findNodeByLabel nodes1 p with
          | none => { nodes := nodes1, edges := st.edges, idCounter := st.idCounter + 1 }
          | some parentNode =>
            { nodes := nodes1
              edges := st.edges ++
                [{ id := ids (st.idCounter + 1), source := newNode.id,
                   target := some parentNode.id, label := some "subClassOf" }]
              idCounter := st.idCounter + 2 }

/-- `case 'remove_node'` of `applyActions`. -/
def applyRemoveNode (st : ApplyState) (a : ChatAction) : ApplyState :=
  if strFalsy a.label then st else
  match a.label with
  | none => st
  | some l =>
    match findNodeByLabel st.nodes l with
    | none => st
    | some nodeToRemove =>
      { nodes := st.nodes.filter (fun n => ¬ n.id = nodeToRemove.id)
        edges := st.edges.filter
          (fun e => ¬ e.source = nodeToRemove.id ∧ ¬ e.target = some nodeToRemove.id)
        idCounter := st.idCounter }

/-- `case 'add_edge'` of `applyActions`.  Note that the duplicate guard
compares only `(source, target)` node ids: the edge label plays no part. -/
def applyAddEdge (ids : Nat → String) (st : ApplyState) (a : ChatAction) :
    ApplyState :=
  if strFalsy a.source ∨ strFalsy a.target then st else
  match a.source, a.target with
  | some s, some t =>
    match findNodeByLabel st.nodes s, findNodeByLabel st.nodes t with
    | some sourceNode, some targetNode =>
      match st.edges.find?
          (fun e => e.source == sourceNode.id && e.target == some targetNode.id) with
      | some _ => st
      | none =>
        { nodes := st.nodes
          edges := st.edges ++
            [{ id := ids st.idCounter, source := sourceNode.id,
               target := some targetNode.id,
               label := some (if strFalsy a.label then "relatedTo" else a.label.getD "relatedTo") }]
          idCounter := st.idCounter + 1 }
    | _, _ => st
  | _, _ => st

/-- `case 'remove_edge'` of `applyActions`: every edge whose `(source, target)`
pair matches the resolved nodes is removed, whatever its label. -/
def applyRemoveEdge (st : ApplyState) (a : ChatAction) : ApplyState :=
  if strFalsy a.source ∨ strFalsy a.target then st else
  match a.source, a.target with
  | some s, some t =>
    match findNodeByLabel st.nodes s, findNodeByLabel st.nodes t with
    | some sourceNode, some targetNode =>
      { nodes := st.nodes
        edges := st.edges.filter
          (fun e => ¬ (e.source = sourceNode.id ∧ e.target = some targetNode.id))
        idCounter := st.idCounter }
    | _, _ => st
  | _, _ => st

/-- `case 'add_property'` of `applyActions`.  The shared `String` node is
found or created first; the duplicate guard then compares `(source, label)`
of the existing edges with the class node and the property name. -/
def applyAddProperty (ids : Nat → String) (st : ApplyState) (a : ChatAction) :
    ApplyState :=
  if strFalsy a.«class» ∨ strFalsy a.property then st else
  match a.«class», a.property with
  | some c, some p =>
    match findNodeByLabel st.nodes c with
    | none => st
    | some classNode =>
      let strFound := findNodeByLabel st.nodes "String"
      let stringNode : Node :=
        match strFound with
        | some s => s
        | none =>
          { id := ids st.idCounter, type := some "default", data := { label := some "String" } }
      let nodes1 :=
        match strFound with
        | some _ => st.nodes
        | none => st.nodes ++ [stringNode]
      let k1 := match strFound with | some _ => st.idCounter | none => st.idCounter + 1
      match st.edges.find? (fun e => e.source == classNode.id && e.label == some p) with
      | some _ => { nodes := nodes1, edges := st.edges, idCounter := k1 }
      | none =>
        { nodes := nodes1
          edges := st.edges ++
            [{ id := ids k1, source := classNode.id, target := some stringNode.id,
               label := some p }]
          idCounter := k1 + 1 }
  | _, _ => st

/-- One iteration of the `for (const action of actions)` loop: the `switch`
on `action.action`. -/
def applyAction (ids : Nat → String) (st : ApplyState) (a : ChatAction) :
    ApplyState :=
  match a.action with
  | "add_node" => applyAddNode ids st a
  | "remove_node" => applyRemoveNode st a
  | "add_edge" => applyAddEdge ids st a
  | "remove_edge" => applyRemoveEdge st a
  | "add_property" => applyAddProperty ids st a
  | _ => st

/-- `applyActions` from `ChatPanel.tsx`: fold the action list over a working
copy of the node and edge arrays and hand back the resulting pair. -/
def applyActions (ids : Nat → String) (nodes : List Node) (edges : List Edge)
    (actions : List ChatAction) : List Node × List Edge :=
  let st := actions.foldl (applyAction ids) ⟨nodes, edges, 0⟩
  (st.nodes, st.edges)

/-! ## `buildHierarchy` (`TriplesView.tsx`)

The source builds a `parent → children` map and a `child → parent` map from
the `subClassOf` edges, takes as roots the nodes that are never the child
side of a `subClassOf` edge, then runs a depth-first traversal guarded by a
`visited` set, first from the roots and then from every still-unvisited node.

The recursive `visit` is translated as an explicit work-list: processing
`(id, depth)` either skips it (already visited), or marks it, emits its
group and prepends its children at `depth + 1` — exactly the pre-order the
recursion produces.  The work-list loop is driven by a fuel argument;
`buildHierarchy` passes `nodes.length + U.length * (edges.length + 1)` where
`U` collects every id the traversal can ever see, which the lemmas below
show never runs out. -/

/-- `NodeGroup` from `TriplesView.tsx`. -/
structure NodeGroup where
  nodeId : String
  label : String
  depth : Nat
  properties : List (String × String)
deriving DecidableEq, Repr

/-- `node.data.label || node.id` (an `undefined` or empty label falls back
to the id). -/
def labelOrId (n : Node) : String :=
  match n.data.label with
  | some l => if l = "" then n.id else l
  | none => n.id

/-- The `subClassOf` predicate test used when building the hierarchy maps:
`typeof edge.label === 'string' ? edge.label : ''` compared to
`'subClassOf'`. -/
def isSubClassOfEdge (e : Edge) : Bool :=
  e.label == some "subClassOf"

/-- `children.get(nodeId)`: the child ids pushed for `nodeId`, in edge
order (`edge.target` is the parent, `edge.source` the child). -/
def childrenOf (edges : List Edge) (nodeId : String) : List String :=
  (edges.filter (fun e => isSubClassOfEdge e && e.target == some nodeId)).map
    (fun e => e.source)

/-- The key set of the `parents` map: ids that appear as the child
(`source`) side of some `subClassOf` edge. -/
def subClassChildIds (edges : List Edge) : List String :=
  (edges.filter isSubClassOfEdge).map (fun e => e.source)

/-- The property rows collected for a visited node: its outgoing
non-`subClassOf` edges whose target resolves, as
`(predicate, target label)` pairs.  (The source's `attributes` array is
always empty, so `properties` is just the relationship list.) -/
def propertiesOf (nodes : List Node) (edges : List Edge) (nodeId : String) :
    List (String × String) :=
  (edges.filter (fun e => e.source == nodeId)).foldr
    (fun e acc =>
      let predicate := e.label.getD "relatedTo"
      if predicate = "subClassOf" then acc
      else
        match nodes.find? (fun n => some n.id == e.target) with
        | some targetNode => (predicate, labelOrId targetNode) :: acc
        | none => acc)
    []

/-- The id universe of the traversal: every id `visit` can be called on
(root and leftover node ids, and child ids coming from edge sources). -/
def dfsUniverse (nodes : List Node) (edges : List Edge) : List String :=
  nodes.map Node.id ++ edges.map Edge.source

/-- The fuelled work-list form of `visit`: state is
`(visited, work-list, result)`.  Each step pops one entry; a fresh entry is
marked visited, its group emitted (when its node exists) and its children
prepended at `depth + 1`. -/
def dfsVisit (nodes : List Node) (edges : List Edge) :
    Nat → List String → List (String × Nat) → List NodeGroup →
    List NodeGroup × List String
  | 0, visited, _, result => (result, visited)
  | _ + 1, visited, [], result => (result, visited)
  | fuel + 1, visited, (nodeId, depth) :: rest, result =>
    if nodeId ∈ visited then dfsVisit nodes edges fuel visited rest result
    else
      let visited1 := nodeId :: visited
      match nodes.find? (fun n => n.id == nodeId) with
      | none => dfsVisit nodes edges fuel visited1 rest result
      | some node =>
        let group : NodeGroup :=
          { nodeId := nodeId, label := labelOrId node, depth := depth
            properties := propertiesOf nodes edges nodeId }
        dfsVisit nodes edges fuel visited1
          ((childrenOf edges nodeId).map (fun c => (c, depth + 1)) ++ rest)
          (result ++ [group])

/-- The number of groups in a result list whose subject is the node id
`i`. -/
def countGroups (rs : List NodeGroup) (i : String) : Nat :=
  (rs.filter (fun g => g.nodeId = i)).length

/-- The termination measure of the work-list loop: pending entries plus a
budget of `edges.length + 1` steps for every id of the universe not yet
visited. -/
def dfsMeasure (nodes : List Node) (edges : List Edge)
    (visited : List String) (stack : List (String × Nat)) : Nat :=
  stack.length +
    ((dfsUniverse nodes edges).filter (fun y => ¬ y ∈ visited)).length *
      (edges.length + 1)

/-- `buildHierarchy` from `TriplesView.tsx`: visit the roots, then every
node still unvisited, and return the emitted groups in order. -/
def buildHierarchy (nodes : List Node) (edges : List Edge) : List NodeGroup :=
  let roots := nodes.filter (fun n => ¬ n.id ∈ subClassChildIds edges)
  let fuel := nodes.length + (dfsUniverse nodes edges).length * (edges.length + 1)
  let (result1, visited1) :=
    dfsVisit nodes edges fuel [] (roots.map (fun r => (r.id, 0))) []
  (dfsVisit nodes edges fuel visited1 (nodes.map (fun n => (n.id, 0))) result1).1

/-! ## `generateTurtle` (Turtle export module) -/

/-- JS `\s` on the characters the editor actually produces: ASCII
whitespace. -/
def jsWhitespace (c : Char) : Bool :=
  c = ' ' || c = '\t' || c = '\n' || c = '\r' || c = '\x0b' || c = '\x0c'

/-- Character-list worker for `slug`; the flag records whether the previous
character belonged to a whitespace run already replaced by `'_'`. -/
def slugAux : Bool → List Char → List Char
  | _, [] => []
  | inRun, c :: cs =>
    if jsWhitespace c then
      if inRun then slugAux true cs else '_' :: slugAux true cs
    else c :: slugAux false cs

/-- `label.replace(/\s+/g, '_')`: each maximal whitespace run becomes one
underscore. -/
def slug (s : String) : String :=
  ⟨slugAux false s.data⟩

/-- The Turtle lines one edge contributes (`generateTurtle`'s edge loop):
nothing when either endpoint does not resolve, a `rdfs:subClassOf` triple
for `subClassOf` edges, and an `owl:ObjectProperty` declaration with domain
and range otherwise. -/
def turtleEdgeLines (nodes : List Node) (e : Edge) : List String :=
  match nodes.find? (fun n => n.id == e.source),
      nodes.find? (fun n => some n.id == e.target) with
  | some sourceNode, some targetNode =>
    let sourceUri := ":" ++ slug (labelOrId sourceNode)
    let targetUri := ":" ++ slug (labelOrId targetNode)
    let predicate := e.label.getD "relatedTo"
    if predicate = "subClassOf" then
      [sourceUri ++ " rdfs:subClassOf " ++ targetUri ++ " .", ""]
    else
      let predicateUri := ":" ++ slug predicate
      [predicateUri ++ " a owl:ObjectProperty ;",
       "    rdfs:domain " ++ sourceUri ++ " ;",
       "    rdfs:range " ++ targetUri ++ " .", ""]
  | _, _ => []

/-- The full line list `generateTurtle` joins with `'\n'`: prefixes, one
`owl:Class` declaration per node, then the per-edge lines. -/
def turtleLines (nodes : List Node) (edges : List Edge) : List String :=
  ["@prefix rdf: <http://www.w3.org/1999/02/22-rdf-syntax-ns#> .",
   "@prefix rdfs: <http://www.w3.org/2000/01/rdf-schema#> .",
   "@prefix owl: <http://www.w3.org/2002/07/owl#> .",
   "@prefix : <http://example.org/ontology#> .",
   ""] ++
  (nodes.map (fun node =>
    let label := labelOrId node
    let uri := ":" ++ slug label
    [uri ++ " a owl:Class ;", "    rdfs:label \"" ++ label ++ "\" .", ""])).flatten ++
  (edges.map (turtleEdgeLines nodes)).flatten

/-- `generateTurtle(nodes, edges)`. -/
def generateTurtle (nodes : List Node) (edges : List Edge) : String :=
  String.intercalate "\n" (turtleLines nodes edges)

/-! ## `extractActions` (`ChatPanel.tsx`)

Three platform builtins are kept abstract, as parameters:

* `p : String → Option JsonVal` models `JSON.parse` inside its `try`:
  `none` is a thrown `SyntaxError`, `some v` the parsed value, projected to
  the shape the surrounding code inspects (`JsonVal`);
* `mb : String → List String` models the successive captures of the fenced
  block regex `/κjson\s*([\s\S]*?)κ/gi` (κ being three backticks) over the
  message, in match order;
* `mi : String → List String` models the successive whole matches of the
  inline fallback regex, brace-delimited candidates containing an
  `"action"` key.

Everything around those calls — the per-block single/array/line-by-line
cascade, the `action`-field truthiness guards, the silent `catch` blocks,
and the inline fallback firing only when no block yielded an action — is
translated concretely. -/

/-- The fields of a parsed JSON object that the extractor and applier read
(the `as ChatAction` cast is field projection). -/
structure JsonObjFields where
  action : Option String := none
  label : Option String := none
  parent : Option String := none
  source : Option String := none
  target : Option String := none
  «class» : Option String := none
  property : Option String := none
deriving DecidableEq, Repr

/-- The result of a successful `JSON.parse`, as far as the extractor
inspects it: an object, an array, `null` (on which reading `.action`
throws), or another primitive (on which `.action` is `undefined`). -/
inductive JsonVal where
  | obj (fields : JsonObjFields)
  | arr (elems : List JsonVal)
  | jnull
  | prim
deriving Repr

/-- `parsed as ChatAction` on an object. -/
def toChatAction (f : JsonObjFields) : ChatAction :=
  { action := f.action.getD "", label := f.label, parent := f.parent,
    source := f.source, target := f.target, «class» := f.«class»,
    property := f.property }

/-- `if (parsed.action) actions.push(parsed)` for an arbitrary parsed
value: only an object with a truthy `action` field is emitted; reading
`.action` off `null` throws (handled by the callers below). -/
def objAction : JsonVal → List ChatAction
  | .obj f => if strFalsy f.action then [] else [toChatAction f]
  | _ => []

/-- The `parsed.forEach` body over an array: objects with truthy `action`
are pushed until a `null` element makes `.action` throw;
the Boolean reports whether the loop threw. -/
def collectArrayActions : List JsonVal → List ChatAction × Bool
  | [] => ([], false)
  | .jnull :: _ => ([], true)
  | v :: vs =>
    let (rest, threw) := collectArrayActions vs
    (objAction v ++ rest, threw)

/-- JS `String.prototype.trim` on the characters the editor handles:
strip leading and trailing whitespace (structurally, so that concrete runs
compute). -/
def trimChars (s : String) : String :=
  ⟨((s.data.dropWhile jsWhitespace).reverse.dropWhile jsWhitespace).reverse⟩

/-- Worker for `splitLines`, accumulating the current line reversed. -/
def splitLinesAux : List Char → List Char → List String
  | [], acc => [⟨acc.reverse⟩]
  | c :: cs, acc =>
    if c = '\n' then ⟨acc.reverse⟩ :: splitLinesAux cs []
    else splitLinesAux cs (c :: acc)

/-- JS `split('\n')`. -/
def splitLines (s : String) : List String :=
  splitLinesAux s.data []

/-- JS `startsWith('{')`. -/
def headIsBrace (s : String) : Bool :=
  match s.data with
  | c :: _ => c = '{'
  | [] => false

/-- One line of the line-by-line fallback: skipped unless it trims to a
string starting with `{` that parses to an object with a truthy `action`
field (a `null` parse throws into the per-line `catch`). -/
def lineAction (p : String → Option JsonVal) (line : String) : List ChatAction :=
  let t := trimChars line
  if t = "" ∨ ¬ headIsBrace t then []
  else
    match p t with
    | some v => match v with | .jnull => [] | _ => objAction v
    | none => []

/-- The line-by-line fallback over a block's trimmed text. -/
def lineActions (p : String → Option JsonVal) (s : String) : List ChatAction :=
  ((splitLines s).map (lineAction p)).flatten

/-- The actions one fenced block contributes: try the whole (trimmed) block
as a single JSON value first; fall back to line-by-line parsing when that
parse throws, when reading `.action` off a parsed `null` throws, or — with
the actions already pushed kept — when the array loop throws midway. -/
def blockActions (p : String → Option JsonVal) (b : String) : List ChatAction :=
  let s := trimChars b
  match p s with
  | some (.obj f) => if strFalsy f.action then [] else [toChatAction f]
  | some (.arr es) =>
    let (acts, threw) := collectArrayActions es
    if threw then acts ++ lineActions p s else acts
  | some .prim => []
  | some .jnull => lineActions p s
  | none => lineActions p s

/-- One inline-regex candidate: parsed and emitted when it is an object
with a truthy `action` field (a thrown parse or member access is caught and
ignored). -/
def inlineAction (p : String → Option JsonVal) (s : String) : List ChatAction :=
  match p s with
  | some v => match v with | .jnull => [] | _ => objAction v
  | none => []

/-- `extractActions(content)`: every fenced block's actions in order; when
no block yielded any, the inline candidates instead. -/
def extractActions (p : String → Option JsonVal) (mb mi : String → List String)
    (content : String) : List ChatAction :=
  let fromBlocks := ((mb content).map (blockActions p)).flatten
  if fromBlocks.isEmpty then ((mi content).map (inlineAction p)).flatten
  else fromBlocks

/-! ## A store-level second embedding of `applyActions` (for the frame claim)

The pure `applyActions` above cannot even express "the caller's arrays are
not mutated", so the array operations are re-translated against an explicit
store: a cell per JS array, a handle (index) per array reference.  The
opening `[...nodes]` / `[...edges]` spreads allocate fresh cells, `push`
writes the working cell in place, and a `filter` re-binding allocates a new
cell and moves the working handle, exactly as the JS engine would.  Node and
edge objects themselves are plain values here, which is faithful because no
statement of `applyActions` assigns to a field of an existing node or edge —
its writes are all array-level.  The caller's snapshot is whatever its
handles point at, so the frame claim is: the cells passed in read the same
after the batch as before. -/

/-- The store: one list of cells per element type. -/
structure Store where
  nodeCells : List (List Node)
  edgeCells : List (List Edge)
deriving Repr

/-- Read a node-array handle (reads of a dangling handle never occur but
default to `[]`). -/
def Store.readN (σ : Store) (h : Nat) : List Node := σ.nodeCells.getD h []

/-- Read an edge-array handle. -/
def Store.readE (σ : Store) (h : Nat) : List Edge := σ.edgeCells.getD h []

/-- Allocate a fresh node-array cell, returning its handle. -/
def Store.allocN (σ : Store) (xs : List Node) : Store × Nat :=
  ({ σ with nodeCells := σ.nodeCells ++ [xs] }, σ.nodeCells.length)

/-- Allocate a fresh edge-array cell. -/
def Store.allocE (σ : Store) (xs : List Edge) : Store × Nat :=
  ({ σ with edgeCells := σ.edgeCells ++ [xs] }, σ.edgeCells.length)

/-- Overwrite a node-array cell (`push` mutates in place). -/
def Store.writeN (σ : Store) (h : Nat) (xs : List Node) : Store :=
  { σ with nodeCells := σ.nodeCells.set h xs }

/-- Overwrite an edge-array cell. -/
def Store.writeE (σ : Store) (h : Nat) (xs : List Edge) : Store :=
  { σ with edgeCells := σ.edgeCells.set h xs }

/-- The loop state of the store-level `applyActions`: the store, the
handles currently bound to the `newNodes` / `newEdges` locals, and the id
counter. -/
structure StState where
  σ : Store
  hN : Nat
  hE : Nat
  idCounter : Nat

/-- Store-level `case 'add_node'`: `push` onto the working node cell, then
possibly `push` onto the working edge cell. -/
def stAddNode (ids : Nat → String) (st : StState) (a : ChatAction) : StState :=
  if strFalsy a.label then st else
  match a.label with
  | none => st
  | some l =>
    match findNodeByLabel (st.σ.readN st.hN) l with
    | some _ => st
    | none =>
      let newNode : Node :=
        { id := ids st.idCounter, type := some "default", data := { label := some l } }
      let σ1 := st.σ.writeN st.hN (st.σ.readN st.hN ++ [newNode])
      if strFalsy a.parent then
        { st with σ := σ1, idCounter := st.idCounter + 1 }
      else
        match a.parent with
        | none => { st with σ := σ1, idCounter := st.idCounter + 1 }
        | some p =>
          match findNodeByLabel (σ1.readN st.hN) p with
          | none => { st with σ := σ1, idCounter := st.idCounter + 1 }
          | some parentNode =>
            { st with
              σ := σ1.writeE st.hE (σ1.readE st.hE ++
                [{ id := ids (st.idCounter + 1), source := newNode.id,
                   target := some parentNode.id, label := some "subClassOf" }])
              idCounter := st.idCounter + 2 }

/-- Store-level `case 'remove_node'`: the two `filter` re-bindings allocate
fresh cells and move both working handles. -/
def stRemoveNode (st : StState) (a : ChatAction) : StState :=
  if strFalsy a.label then st else
  match a.label with
  | none => st
  | some l =>
    match findNodeByLabel (st.σ.readN st.hN) l with
    | none => st
    | some nodeToRemove =>
      let a1 := st.σ.allocN
        ((st.σ.readN st.hN).filter (fun n => ¬ n.id = nodeToRemove.id))
      let a2 := a1.1.allocE
        ((a1.1.readE st.hE).filter
          (fun e => ¬ e.source = nodeToRemove.id ∧ ¬ e.target = some nodeToRemove.id))
      { σ := a2.1, hN := a1.2, hE := a2.2, idCounter := st.idCounter }

/-- Store-level `case 'add_edge'`. -/
def stAddEdge (ids : Nat → String) (st : StState) (a : ChatAction) : StState :=
  if strFalsy a.source ∨ strFalsy a.target then st else
  match a.source, a.target with
  | some s, some t =>
    match findNodeByLabel (st.σ.readN st.hN) s,
        findNodeByLabel (st.σ.readN st.hN) t with
    | some sourceNode, some targetNode =>
      match (st.σ.readE st.hE).find?
          (fun e => e.source == sourceNode.id && e.target == some targetNode.id) with
      | some _ => st
      | none =>
        { st with
          σ := st.σ.writeE st.hE (st.σ.readE st.hE ++
            [{ id := ids st.idCounter, source := sourceNode.id,
               target := some targetNode.id,
               label := some (if strFalsy a.label then "relatedTo" else a.label.getD "relatedTo") }])
          idCounter := st.idCounter + 1 }
    | _, _ => st
  | _, _ => st

/-- Store-level `case 'remove_edge'`. -/
def stRemoveEdge (st : StState) (a : ChatAction) : StState :=
  if strFalsy a.source ∨ strFalsy a.target then st else
  match a.source, a.target with
  | some s, some t =>
    match findNodeByLabel (st.σ.readN st.hN) s,
        findNodeByLabel (st.σ.readN st.hN) t with
    | some sourceNode, some targetNode =>
      let a1 := st.σ.allocE
        ((st.σ.readE st.hE).filter
          (fun e => ¬ (e.source = sourceNode.id ∧ e.target = some targetNode.id)))
      { st with σ := a1.1, hE := a1.2 }
    | _, _ => st
  | _, _ => st

/-- Store-level `case 'add_property'`. -/
def stAddProperty (ids : Nat → String) (st : StState) (a : ChatAction) : StState :=
  if strFalsy a.«class» ∨ strFalsy a.property then st else
  match a.«class», a.property with
  | some c, some p =>
    match findNodeByLabel (st.σ.readN st.hN) c with
    | none => st
    | some classNode =>
      let strFound := findNodeByLabel (st.σ.readN st.hN) "String"
      let stringNode : Node :=
        match strFound with
        | some s => s
        | none =>
          { id := ids st.idCounter, type := some "default", data := { label := some "String" } }
      let σ1 :=
        match strFound with
        | some _ => st.σ
        | none => st.σ.writeN st.hN (st.σ.readN st.hN ++ [stringNode])
      let k1 := match strFound with | some _ => st.idCounter | none => st.idCounter + 1
      match (σ1.readE st.hE).find?
          (fun e => e.source == classNode.id && e.label == some p) with
      | some _ => { st with σ := σ1, idCounter := k1 }
      | none =>
        { st with
          σ := σ1.writeE st.hE (σ1.readE st.hE ++
            [{ id := ids k1, source := classNode.id, target := some stringNode.id,
               label := some p }])
          idCounter := k1 + 1 }
  | _, _ => st

/-- Store-level loop body: the `switch`. -/
def stApplyAction (ids : Nat → String) (st : StState) (a : ChatAction) : StState :=
  match a.action with
  | "add_node" => stAddNode ids st a
  | "remove_node" => stRemoveNode st a
  | "add_edge" => stAddEdge ids st a
  | "remove_edge" => stRemoveEdge st a
  | "add_property" => stAddProperty ids st a
  | _ => st

/-- Store-level `applyActions`: copy the caller's arrays into fresh working
cells (`[...nodesRef.current]`, `[...edgesRef.current]`), run the loop, and
return the final store together with the handles of the working arrays that
are handed to `onGraphUpdate`. -/
def applyActionsST (ids : Nat → String) (σ : Store) (hN hE : Nat)
    (actions : List ChatAction) : Store × Nat × Nat :=
  let a1 := σ.allocN (σ.readN hN)
  let a2 := a1.1.allocE (a1.1.readE hE)
  let st := actions.foldl (stApplyAction ids) ⟨a2.1, a1.2, a2.2, 0⟩
  (st.σ, st.hN, st.hE)

/-- The `String` node `add_property` creates when none exists. -/
def mkStringNode (ids : Nat → String) (st : ApplyState) : Node :=
  { id := ids st.idCounter, type := some "default",
    data := { label := some "String" } }

/-- The no-dangling-edge invariant: every edge's `source`, and its `target`
when present, is the id of some node in the node list. -/
def edgeRefsOk (nodes : List Node) (edges : List Edge) : Prop :=
  ∀ e ∈ edges, e.source ∈ nodes.map Node.id ∧
    ∀ t, e.target = some t → t ∈ nodes.map Node.id

/-- The caller-visible part of the store is untouched: cell count only
grew, and every cell that existed before reads the same. -/
def StoreFrame (σ0 σ : Store) : Prop :=
  σ0.nodeCells.length ≤ σ.nodeCells.length ∧
  σ0.edgeCells.length ≤ σ.edgeCells.length ∧
  (∀ i, i < σ0.nodeCells.length → σ.nodeCells.getD i [] = σ0.nodeCells.getD i []) ∧
  (∀ i, i < σ0.edgeCells.length → σ.edgeCells.getD i [] = σ0.edgeCells.getD i [])

/-- The working handles point past every cell the caller could hold. -/
def HandlesFresh (σ0 : Store) (st : StState) : Prop :=
  σ0.nodeCells.length ≤ st.hN ∧ σ0.edgeCells.length ≤ st.hE

/-! ## Concrete sample data used by witnesses and counterexamples -/

/-- A sample parse oracle for concrete runs: recognizes exactly one
`add_node` object. -/
def pSample : String → Option JsonVal := fun s =>
  if s = "\x7b\"action\":\"add_node\",\"label\":\"Cat\"\x7d" then
    some (.obj { action := some "add_node", label := some "Cat" })
  else none

/-- A sample fenced-block oracle: one unparsable block, then one good
block. -/
def mbSample : String → List String :=
  fun _ => ["notjson", "\x7b\"action\":\"add_node\",\"label\":\"Cat\"\x7d"]

/-- A sample inline-candidate oracle: no candidates. -/
def miSample : String → List String := fun _ => []

/-- A deterministic id supply for concrete runs. -/
def ids0 : Nat → String := fun k => "gen-" ++ toString k

/-- Sample class node `Animal`. -/
def nAnimal : Node := { id := "n1", data := { label := some "Animal" } }

/-- Sample class node `Dog`. -/
def nDog : Node := { id := "n2", data := { label := some "Dog" } }

/-- Sample edge `Dog subClassOf Animal`. -/
def eSub : Edge :=
  { id := "e1", source := "n2", target := some "n1", label := some "subClassOf" }

/-- Sample edge `Dog eats Animal`. -/
def eEats : Edge :=
  { id := "e2", source := "n2", target := some "n1", label := some "eats" }

/-- Sample edge `Dog likes Animal` (parallel to `eEats`). -/
def eLikes : Edge :=
  { id := "e3", source := "n2", target := some "n1", label := some "likes" }

/-- Sample edge `Dog breed Animal` (a pre-existing property-like edge). -/
def eBreed : Edge :=
  { id := "e4", source := "n2", target := some "n1", label := some "breed" }

/-- Sample edge `Animal eats Dog` (same predicate as `eEats`, other
direction). -/
def eEatsRev : Edge :=
  { id := "e5", source := "n1", target := some "n2", label := some "eats" }

/-- The `owl:ObjectProperty` declaration line `generateTurtle` emits for a
predicate URI body `u` (the template literal of the edge loop). -/
def objPropDeclLine (u : String) : String :=
  ":" ++ u ++ " a owl:ObjectProperty ;"

/-! ## Theorems -/

theorem data_head?_append_of_some {p : String} (s : String) {c : Char}
    (hp : p.data.head? = some c) : (p ++ s).data.head? = some c := by
  rw [String.data_append]
  cases hd : p.data with
  | nil => rw [hd] at hp; cases hp
  | cons a tl => rw [hd] at hp; simpa using hp

theorem ne_of_data_head {s t : String} {c d : Char}
    (hs : s.data.head? = some c) (ht : t.data.head? = some d)
    (hcd : c ≠ d) : s ≠ t := by
  intro h
  rw [h, ht] at hs
  exact hcd (Option.some_injective _ hs).symm

theorem append_ne_append_of_rev_take {n : Nat} {a b s t : String}
    (hns : n ≤ s.data.length) (hnt : n ≤ t.data.length)
    (hne : s.data.reverse.take n ≠ t.data.reverse.take n) :
    a ++ s ≠ b ++ t := by
  intro h
  apply hne
  have h' := congrArg (fun x => x.data.reverse.take n) h
  simp only [String.data_append, List.reverse_append] at h'
  rwa [List.take_append_of_le_length (by simpa using hns),
    List.take_append_of_le_length (by simpa using hnt)] at h'

theorem objPropDeclLine_data (u : String) :
    (objPropDeclLine u).data = ':' :: (u.data ++ (" a owl:ObjectProperty ;").data) := by
  simp [objPropDeclLine, String.data_append]

theorem objPropDeclLine_head (u : String) :
    (objPropDeclLine u).data.head? = some ':' := by
  rw [objPropDeclLine_data]; rfl

theorem objPropDeclLine_inj {x u : String}
    (h : objPropDeclLine x = objPropDeclLine u) : x = u := by
  have hd := congrArg String.data h
  rw [objPropDeclLine_data, objPropDeclLine_data] at hd
  exact String.ext (List.append_cancel_right (List.cons_injective hd))

theorem classDecl_ne_objPropDeclLine (x u : String) :
    (":" ++ x ++ " a owl:Class ;") ≠ objPropDeclLine u := by
  show (":" ++ x) ++ " a owl:Class ;" ≠ (":" ++ u) ++ " a owl:ObjectProperty ;"
  exact append_ne_append_of_rev_take (n := 3) (by decide) (by decide) (by decide)

theorem subClassOfLine_ne_objPropDeclLine (a u : String) :
    (a ++ " .") ≠ objPropDeclLine u := by
  show a ++ " ." ≠ (":" ++ u) ++ " a owl:ObjectProperty ;"
  exact append_ne_append_of_rev_take (n := 2) (by decide) (by decide) (by decide)

theorem indented_ne_objPropDeclLine (p s u : String)
    (hp : p.data.head? = some ' ') : (p ++ s) ≠ objPropDeclLine u :=
  ne_of_data_head (data_head?_append_of_some s hp) (objPropDeclLine_head u)
    (by decide)

theorem empty_ne_objPropDeclLine (u : String) : ("" : String) ≠ objPropDeclLine u := by
  intro h
  have h1 := objPropDeclLine_head u
  rw [← h] at h1
  exact Option.noConfusion h1

theorem prefix_line_ne_objPropDeclLine (s u : String)
    (hs : s.data.head? = some '@') : s ≠ objPropDeclLine u :=
  ne_of_data_head hs (objPropDeclLine_head u) (by decide)

/-- Per-edge contribution of `objPropDeclLine u` in `turtleEdgeLines`. -/
theorem count_turtleEdgeLines (nodes : List Node) (e : Edge) (u : String) :
    (turtleEdgeLines nodes e).count (objPropDeclLine u) =
      (if (nodes.find? (fun n => n.id == e.source)).isSome ∧
          (nodes.find? (fun n => some n.id == e.target)).isSome ∧
          e.label.getD "relatedTo" ≠ "subClassOf" ∧
          slug (e.label.getD "relatedTo") = u then 1 else 0) := by
  cases hsrc : nodes.find? (fun n => n.id == e.source) with
  | none => simp [turtleEdgeLines, hsrc]
  | some sourceNode =>
    cases htgt : nodes.find? (fun n => some n.id == e.target) with
    | none => simp [turtleEdgeLines, hsrc, htgt]
    | some targetNode =>
      by_cases hsub : e.label.getD "relatedTo" = "subClassOf"
      · rw [if_neg (by simp [hsub])]
        simp only [turtleEdgeLines, hsrc, htgt, hsub, if_pos rfl]
        rw [List.count_eq_zero]
        intro hmem
        rcases List.mem_cons.mp hmem with h | hmem
        · exact subClassOfLine_ne_objPropDeclLine _ u h.symm
        rcases List.mem_cons.mp hmem with h | hmem
        · exact empty_ne_objPropDeclLine u h.symm
        exact List.not_mem_nil _ hmem
      · simp only [turtleEdgeLines, hsrc, htgt]
        rw [if_neg hsub]
        have hdom : ("    rdfs:domain " ++ (":" ++ slug (labelOrId sourceNode)) ++ " ;")
            ≠ objPropDeclLine u := by
          show ("    rdfs:domain " ++ ((":" ++ slug (labelOrId sourceNode)) ++ " ;"))
            ≠ objPropDeclLine u
          exact indented_ne_objPropDeclLine _ _ u rfl
        have hrng : ("    rdfs:range " ++ (":" ++ slug (labelOrId targetNode)) ++ " .")
            ≠ objPropDeclLine u := by
          show ("    rdfs:range " ++ ((":" ++ slug (labelOrId targetNode)) ++ " ."))
            ≠ objPropDeclLine u
          exact indented_ne_objPropDeclLine _ _ u rfl
        by_cases hslug : slug (e.label.getD "relatedTo") = u
        · rw [if_pos ⟨rfl, rfl, hsub, hslug⟩]
          have hdecl : (":" ++ slug (e.label.getD "relatedTo") ++ " a owl:ObjectProperty ;")
              = objPropDeclLine u := by
            rw [hslug]; rfl
          rw [hdecl, List.count_cons_self, Nat.add_left_eq_self, List.count_eq_zero]
          intro hmem
          simp only [List.mem_cons, List.not_mem_nil, or_false] at hmem
          rcases hmem with h | h | h
          · exact hdom h.symm
          · exact hrng h.symm
          · exact empty_ne_objPropDeclLine u h.symm
        · rw [if_neg (by simp [hslug]), List.count_eq_zero]
          intro hmem
          simp only [List.mem_cons, List.not_mem_nil, or_false] at hmem
          rcases hmem with h | h | h | h
          · exact hslug (objPropDeclLine_inj h.symm)
          · exact hdom h.symm
          · exact hrng h.symm
          · exact empty_ne_objPropDeclLine u h.symm

/-- The class-declaration section contributes no `owl:ObjectProperty`
declaration lines. -/
theorem count_turtle_class_section (nodes : List Node) (u : String) :
    ((nodes.map (fun node =>
      let label := labelOrId node
      let uri := ":" ++ slug label
      [uri ++ " a owl:Class ;", "    rdfs:label \"" ++ label ++ "\" .",
       ""])).flatten).count (objPropDeclLine u) = 0 := by
  rw [List.count_eq_zero]
  intro hmem
  rw [List.mem_flatten] at hmem
  obtain ⟨block, hblock, hline⟩ := hmem
  rw [List.mem_map] at hblock
  obtain ⟨n, _, hn⟩ := hblock
  subst hn
  simp only [List.mem_cons, List.not_mem_nil, or_false] at hline
  rcases hline with h | h | h
  · exact classDecl_ne_objPropDeclLine (slug (labelOrId n)) u h.symm
  · exact indented_ne_objPropDeclLine "    rdfs:label \"" (labelOrId n ++ "\" .") u rfl
      (by rw [← String.append_assoc]; exact h.symm)
  · exact empty_ne_objPropDeclLine u h.symm

/-- `C5` (amended): `generateTurtle` performs no deduplication — the number
of `owl:ObjectProperty` declaration lines for a predicate URI `u` equals
the number of non-`subClassOf` edges with both endpoints resolvable whose
slug-ified predicate is `u`; a predicate shared by two such edges is
declared twice. -/
theorem turtle_declarations_count (nodes : List Node) (edges : List Edge)
    (u : String) :
    (turtleLines nodes edges).count (objPropDeclLine u) =
      (edges.filter (fun e =>
        (nodes.find? (fun n => n.id == e.source)).isSome &&
        (nodes.find? (fun n => some n.id == e.target)).isSome &&
        ¬ e.label.getD "relatedTo" = "subClassOf" &&
        slug (e.label.getD "relatedTo") == u)).length := by
  unfold turtleLines
  rw [List.count_append, List.count_append]
  have hpre : (["@prefix rdf: <http://www.w3.org/1999/02/22-rdf-syntax-ns#> .",
      "@prefix rdfs: <http://www.w3.org/2000/01/rdf-schema#> .",
      "@prefix owl: <http://www.w3.org/2002/07/owl#> .",
      "@prefix : <http://example.org/ontology#> .",
      ""] : List String).count (objPropDeclLine u) = 0 := by
    rw [List.count_eq_zero]
    intro hmem
    simp only [List.mem_cons, List.not_mem_nil, or_false] at hmem
    rcases hmem with h | h | h | h | h
    · exact prefix_line_ne_objPropDeclLine _ u (by rfl) h.symm
    · exact prefix_line_ne_objPropDeclLine _ u (by rfl) h.symm
    · exact prefix_line_ne_objPropDeclLine _ u (by rfl) h.symm
    · exact prefix_line_ne_objPropDeclLine _ u (by rfl) h.symm
    · exact empty_ne_objPropDeclLine u h.symm
  rw [hpre, count_turtle_class_section]
  induction edges with
  | nil => rfl
  | cons e es ih =>
    simp only [List.map_cons, List.flatten_cons, List.count_append, List.filter_cons]
    rw [count_turtleEdgeLines]
    by_cases h : (nodes.find? (fun n => n.id == e.source)).isSome ∧
        (nodes.find? (fun n => some n.id == e.target)).isSome ∧
        e.label.getD "relatedTo" ≠ "subClassOf" ∧
        slug (e.label.getD "relatedTo") = u
    · rw [if_pos h]
      have hb : ((nodes.find? (fun n => n.id == e.source)).isSome &&
          (nodes.find? (fun n => some n.id == e.target)).isSome &&
          ¬ e.label.getD "relatedTo" = "subClassOf" &&
          slug (e.label.getD "relatedTo") == u) = true := by
        obtain ⟨h1, h2, h3, h4⟩ := h
        simp [h1, h2, h3, h4]
      rw [hb]
      simp only [if_true, List.length_cons]
      omega
    · rw [if_neg h]
      have hb : ((nodes.find? (fun n => n.id == e.source)).isSome &&
          (nodes.find? (fun n => some n.id == e.target)).isSome &&
          ¬ e.label.getD "relatedTo" = "subClassOf" &&
          slug (e.label.getD "relatedTo") == u) = false := by
        rw [Bool.eq_false_iff]
        intro hc
        apply h
        simp only [Bool.and_eq_true, beq_iff_eq, decide_eq_true_eq] at hc
        exact ⟨hc.1.1.1, hc.1.1.2, by simpa using hc.1.2, hc.2⟩
      rw [hb]
      simp only [Bool.false_eq_true, if_false]
      omega

theorem findNodeByLabel_append_of_none {ns : List Node} (ms : List Node)
    {l : String} (h : findNodeByLabel ns l = none) :
    findNodeByLabel (ns ++ ms) l = findNodeByLabel ms l := by
  unfold findNodeByLabel at *
  rw [List.find?_append, h]
  rfl

theorem findNodeByLabel_append_of_some {ns : List Node} (ms : List Node)
    {l : String} {n : Node} (h : findNodeByLabel ns l = some n) :
    findNodeByLabel (ns ++ ms) l = some n := by
  unfold findNodeByLabel at *
  rw [List.find?_append, h]
  rfl

theorem findNodeByLabel_single {l : String} (n : Node)
    (h : n.data.label = some l) : findNodeByLabel [n] l = some n := by
  unfold findNodeByLabel
  simp [List.find?, h]

theorem find?_append_isSome_right {α : Type} (l1 : List α) {l2 : List α}
    {p : α → Bool} (h : (l2.find? p).isSome) :
    ((l1 ++ l2).find? p).isSome := by
  rw [List.find?_append]
  cases hf : l1.find? p with
  | none => simpa [Option.or] using h
  | some x => rfl

theorem applyAddNode_falsy {a : ChatAction} (ids : Nat → String)
    (st : ApplyState) (h : strFalsy a.label = true) :
    applyAddNode ids st a = st := by
  unfold applyAddNode
  rw [if_pos h]

theorem applyAddNode_found {a : ChatAction} (ids : Nat → String)
    (st : ApplyState) {l : String} {n : Node}
    (hl : a.label = some l) (hl0 : ¬ l = "")
    (hf : findNodeByLabel st.nodes l = some n) : applyAddNode ids st a = st := by
  unfold applyAddNode
  rw [hl]
  rw [if_neg (by simp [strFalsy, hl0])]
  simp [hf]

theorem applyAddNode_new_nodes {a : ChatAction} (ids : Nat → String)
    (st : ApplyState) {l : String}
    (hl : a.label = some l) (hl0 : ¬ l = "")
    (hf : findNodeByLabel st.nodes l = none) :
    (applyAddNode ids st a).nodes = st.nodes ++
      [{ id := ids st.idCounter, type := some "default",
         data := { label := some l } }] := by
  unfold applyAddNode
  rw [hl]
  rw [if_neg (by simp [strFalsy, hl0])]
  simp only [hf]
  cases hp : a.parent with
  | none => simp [strFalsy]
  | some p =>
    by_cases hp0 : p = ""
    · simp [strFalsy, hp0]
    · rw [if_neg (by simp [strFalsy, hp0])]
      cases hfp : findNodeByLabel (st.nodes ++
          [{ id := ids st.idCounter, type := some "default",
             data := { label := some l } }]) p <;> simp [hfp]

theorem applyAddNode_idem (ids ids' : Nat → String) (st : ApplyState)
    (a : ChatAction) (k' : Nat) :
    applyAddNode ids' ⟨(applyAddNode ids st a).nodes,
      (applyAddNode ids st a).edges, k'⟩ a =
      ⟨(applyAddNode ids st a).nodes, (applyAddNode ids st a).edges, k'⟩ := by
  cases hl : a.label with
  | none => exact applyAddNode_falsy ids' _ (by simp [hl, strFalsy])
  | some l =>
    by_cases hl0 : l = ""
    · exact applyAddNode_falsy ids' _ (by simp [hl, strFalsy, hl0])
    · cases hf : findNodeByLabel st.nodes l with
      | some n =>
        have h1 : applyAddNode ids st a = st :=
          applyAddNode_found ids st hl hl0 hf
        rw [h1]
        exact @applyAddNode_found a ids' ⟨st.nodes, st.edges, k'⟩ l n hl hl0 hf
      | none =>
        refine @applyAddNode_found a ids' _ l
          { id := ids st.idCounter, type := some "default",
            data := { label := some l } } hl hl0 ?_
        show findNodeByLabel ((applyAddNode ids st a).nodes) l = some _
        rw [applyAddNode_new_nodes ids st hl hl0 hf,
          findNodeByLabel_append_of_none _ hf]
        exact findNodeByLabel_single _ rfl

theorem applyAddEdge_falsy {a : ChatAction} (ids : Nat → String)
    (st : ApplyState) (h : strFalsy a.source = true ∨ strFalsy a.target = true) :
    applyAddEdge ids st a = st := by
  unfold applyAddEdge
  rw [if_pos h]

theorem applyAddEdge_unresolved {a : ChatAction} (ids : Nat → String)
    (st : ApplyState) {s t : String}
    (hs : a.source = some s) (hs0 : ¬ s = "")
    (ht : a.target = some t) (ht0 : ¬ t = "")
    (hu : findNodeByLabel st.nodes s = none ∨
      findNodeByLabel st.nodes t = none) : applyAddEdge ids st a = st := by
  unfold applyAddEdge
  rw [hs, ht]
  rw [if_neg (by simp [strFalsy, hs0, ht0])]
  cases hfs : findNodeByLabel st.nodes s with
  | none => simp [hfs]
  | some sn =>
    cases hft : findNodeByLabel st.nodes t with
    | none => simp [hfs, hft]
    | some tn => simp_all

theorem applyAddEdge_dup {a : ChatAction} (ids : Nat → String)
    (st : ApplyState) {s t : String} {sn tn : Node}
    (hs : a.source = some s) (hs0 : ¬ s = "")
    (ht : a.target = some t) (ht0 : ¬ t = "")
    (hfs : findNodeByLabel st.nodes s = some sn)
    (hft : findNodeByLabel st.nodes t = some tn)
    (hdup : (st.edges.find?
      (fun e => e.source == sn.id && e.target == some tn.id)).isSome) :
    applyAddEdge ids st a = st := by
  unfold applyAddEdge
  rw [hs, ht]
  rw [if_neg (by simp [strFalsy, hs0, ht0])]
  obtain ⟨w, hw⟩ := Option.isSome_iff_exists.mp hdup
  simp [hfs, hft, hw]

theorem applyAddEdge_new {a : ChatAction} (ids : Nat → String)
    (st : ApplyState) {s t : String} {sn tn : Node}
    (hs : a.source = some s) (hs0 : ¬ s = "")
    (ht : a.target = some t) (ht0 : ¬ t = "")
    (hfs : findNodeByLabel st.nodes s = some sn)
    (hft : findNodeByLabel st.nodes t = some tn)
    (hdup : st.edges.find?
      (fun e => e.source == sn.id && e.target == some tn.id) = none) :
    applyAddEdge ids st a =
      ⟨st.nodes,
       st.edges ++ [{ id := ids st.idCounter, source := sn.id,
                      target := some tn.id,
                      label := some (if strFalsy a.label then "relatedTo"
                        else a.label.getD "relatedTo") }],
       st.idCounter + 1⟩ := by
  unfold applyAddEdge
  rw [hs, ht]
  rw [if_neg (by simp [strFalsy, hs0, ht0])]
  simp [hfs, hft, hdup]

theorem applyAddEdge_idem (ids ids' : Nat → String) (st : ApplyState)
    (a : ChatAction) (k' : Nat) :
    applyAddEdge ids' ⟨(applyAddEdge ids st a).nodes,
      (applyAddEdge ids st a).edges, k'⟩ a =
      ⟨(applyAddEdge ids st a).nodes, (applyAddEdge ids st a).edges, k'⟩ := by
  cases hs : a.source with
  | none => exact applyAddEdge_falsy ids' _ (Or.inl (by simp [hs, strFalsy]))
  | some s =>
    by_cases hs0 : s = ""
    · exact applyAddEdge_falsy ids' _ (Or.inl (by simp [hs, strFalsy, hs0]))
    · cases ht : a.target with
      | none => exact applyAddEdge_falsy ids' _ (Or.inr (by simp [ht, strFalsy]))
      | some t =>
        by_cases ht0 : t = ""
        · exact applyAddEdge_falsy ids' _ (Or.inr (by simp [ht, strFalsy, ht0]))
        · cases hfs : findNodeByLabel st.nodes s with
          | none =>
            have h1 : applyAddEdge ids st a = st :=
              applyAddEdge_unresolved ids st hs hs0 ht ht0 (Or.inl hfs)
            rw [h1]
            exact applyAddEdge_unresolved ids' _ hs hs0 ht ht0 (Or.inl hfs)
          | some sn =>
            cases hft : findNodeByLabel st.nodes t with
            | none =>
              have h1 : applyAddEdge ids st a = st :=
                applyAddEdge_unresolved ids st hs hs0 ht ht0 (Or.inr hft)
              rw [h1]
              exact applyAddEdge_unresolved ids' _ hs hs0 ht ht0 (Or.inr hft)
            | some tn =>
              cases hdup : st.edges.find?
                  (fun e => e.source == sn.id && e.target == some tn.id) with
              | some w =>
                have h1 : applyAddEdge ids st a = st :=
                  applyAddEdge_dup ids st hs hs0 ht ht0 hfs hft (by rw [hdup]; rfl)
                rw [h1]
                exact applyAddEdge_dup ids' _ hs hs0 ht ht0 hfs hft
                  (by rw [hdup]; rfl)
              | none =>
                rw [applyAddEdge_new ids st hs hs0 ht ht0 hfs hft hdup]
                exact applyAddEdge_dup ids' _ hs hs0 ht ht0 hfs hft
                  (find?_append_isSome_right _ (by simp))

theorem applyAddProperty_falsy {a : ChatAction} (ids : Nat → String)
    (st : ApplyState)
    (h : strFalsy a.«class» = true ∨ strFalsy a.property = true) :
    applyAddProperty ids st a = st := by
  unfold applyAddProperty
  rw [if_pos h]

theorem applyAddProperty_unresolved {a : ChatAction} (ids : Nat → String)
    (st : ApplyState) {c p : String}
    (hc : a.«class» = some c) (hc0 : ¬ c = "")
    (hp : a.property = some p) (hp0 : ¬ p = "")
    (hfc : findNodeByLabel st.nodes c = none) : applyAddProperty ids st a = st := by
  unfold applyAddProperty
  rw [hc, hp]
  rw [if_neg (by simp [strFalsy, hc0, hp0])]
  simp [hfc]

/-- With the class resolved, a `String` node already present and the
property edge already present, `add_property` is an exact no-op. -/
theorem applyAddProperty_noop {a : ChatAction} (ids : Nat → String)
    (st : ApplyState) {c p : String} {cn sn : Node}
    (hc : a.«class» = some c) (hc0 : ¬ c = "")
    (hp : a.property = some p) (hp0 : ¬ p = "")
    (hfc : findNodeByLabel st.nodes c = some cn)
    (hfs : findNodeByLabel st.nodes "String" = some sn)
    (hdup : (st.edges.find?
      (fun e => e.source == cn.id && e.label == some p)).isSome) :
    applyAddProperty ids st a = st := by
  unfold applyAddProperty
  rw [hc, hp]
  rw [if_neg (by simp [strFalsy, hc0, hp0])]
  obtain ⟨w, hw⟩ := Option.isSome_iff_exists.mp hdup
  simp [hfc, hfs, hw]

theorem applyAddProperty_dup_strNone {a : ChatAction} (ids : Nat → String)
    (st : ApplyState) {c p : String} {cn : Node}
    (hc : a.«class» = some c) (hc0 : ¬ c = "")
    (hp : a.property = some p) (hp0 : ¬ p = "")
    (hfc : findNodeByLabel st.nodes c = some cn)
    (hfs : findNodeByLabel st.nodes "String" = none)
    {w : Edge}
    (hdup : st.edges.find?
      (fun e => e.source == cn.id && e.label == some p) = some w) :
    applyAddProperty ids st a =
      ⟨st.nodes ++ [mkStringNode ids st], st.edges, st.idCounter + 1⟩ := by
  unfold applyAddProperty
  rw [hc, hp]
  rw [if_neg (by simp [strFalsy, hc0, hp0])]
  simp [hfc, hfs, hdup, mkStringNode]

theorem applyAddProperty_new_strSome {a : ChatAction} (ids : Nat → String)
    (st : ApplyState) {c p : String} {cn s0 : Node}
    (hc : a.«class» = some c) (hc0 : ¬ c = "")
    (hp : a.property = some p) (hp0 : ¬ p = "")
    (hfc : findNodeByLabel st.nodes c = some cn)
    (hfs : findNodeByLabel st.nodes "String" = some s0)
    (hdup : st.edges.find?
      (fun e => e.source == cn.id && e.label == some p) = none) :
    applyAddProperty ids st a =
      ⟨st.nodes,
       st.edges ++ [{ id := ids st.idCounter, source := cn.id,
                      target := some s0.id, label := some p }],
       st.idCounter + 1⟩ := by
  unfold applyAddProperty
  rw [hc, hp]
  rw [if_neg (by simp [strFalsy, hc0, hp0])]
  simp [hfc, hfs, hdup]

theorem applyAddProperty_new_strNone {a : ChatAction} (ids : Nat → String)
    (st : ApplyState) {c p : String} {cn : Node}
    (hc : a.«class» = some c) (hc0 : ¬ c = "")
    (hp : a.property = some p) (hp0 : ¬ p = "")
    (hfc : findNodeByLabel st.nodes c = some cn)
    (hfs : findNodeByLabel st.nodes "String" = none)
    (hdup : st.edges.find?
      (fun e => e.source == cn.id && e.label == some p) = none) :
    applyAddProperty ids st a =
      ⟨st.nodes ++ [mkStringNode ids st],
       st.edges ++ [{ id := ids (st.idCounter + 1), source := cn.id,
                      target := some (mkStringNode ids st).id, label := some p }],
       st.idCounter + 2⟩ := by
  unfold applyAddProperty
  rw [hc, hp]
  rw [if_neg (by simp [strFalsy, hc0, hp0])]
  simp [hfc, hfs, hdup, mkStringNode]

theorem applyAddProperty_idem (ids ids' : Nat → String) (st : ApplyState)
    (a : ChatAction) (k' : Nat) :
    applyAddProperty ids' ⟨(applyAddProperty ids st a).nodes,
      (applyAddProperty ids st a).edges, k'⟩ a =
      ⟨(applyAddProperty ids st a).nodes, (applyAddProperty ids st a).edges, k'⟩ := by
  cases hc : a.«class» with
  | none => exact applyAddProperty_falsy ids' _ (Or.inl (by simp [hc, strFalsy]))
  | some c =>
    by_cases hc0 : c = ""
    · exact applyAddProperty_falsy ids' _ (Or.inl (by simp [hc, strFalsy, hc0]))
    · cases hp : a.property with
      | none => exact applyAddProperty_falsy ids' _ (Or.inr (by simp [hp, strFalsy]))
      | some p =>
        by_cases hp0 : p = ""
        · exact applyAddProperty_falsy ids' _ (Or.inr (by simp [hp, strFalsy, hp0]))
        · cases hfc : findNodeByLabel st.nodes c with
          | none =>
            have h1 : applyAddProperty ids st a = st :=
              applyAddProperty_unresolved ids st hc hc0 hp hp0 hfc
            rw [h1]
            exact applyAddProperty_unresolved ids' _ hc hc0 hp hp0 hfc
          | some cn =>
            cases hfs : findNodeByLabel st.nodes "String" with
            | some s0 =>
              cases hdup : st.edges.find?
                  (fun e => e.source == cn.id && e.label == some p) with
              | some w =>
                have h1 : applyAddProperty ids st a = st :=
                  applyAddProperty_noop ids st hc hc0 hp hp0 hfc hfs
                    (by rw [hdup]; rfl)
                rw [h1]
                exact applyAddProperty_noop ids' _ hc hc0 hp hp0 hfc hfs
                  (by rw [hdup]; rfl)
              | none =>
                rw [applyAddProperty_new_strSome ids st hc hc0 hp hp0 hfc hfs hdup]
                exact applyAddProperty_noop ids' _ hc hc0 hp hp0 hfc hfs
                  (find?_append_isSome_right _ (by simp))
            | none =>
              cases hdup : st.edges.find?
                  (fun e => e.source == cn.id && e.label == some p) with
              | some w =>
                rw [applyAddProperty_dup_strNone ids st hc hc0 hp hp0 hfc hfs hdup]
                exact applyAddProperty_noop ids' _ hc hc0 hp hp0
                  (findNodeByLabel_append_of_some _ hfc)
                  (by rw [findNodeByLabel_append_of_none _ hfs]
                      exact findNodeByLabel_single _ rfl)
                  (by rw [hdup]; rfl)
              | none =>
                rw [applyAddProperty_new_strNone ids st hc hc0 hp hp0 hfc hfs hdup]
                exact applyAddProperty_noop ids' _ hc hc0 hp hp0
                  (findNodeByLabel_append_of_some _ hfc)
                  (by rw [findNodeByLabel_append_of_none _ hfs]
                      exact findNodeByLabel_single _ rfl)
                  (find?_append_isSome_right _ (by simp))

theorem applyAction_idem (ids ids' : Nat → String) (st : ApplyState)
    (a : ChatAction) (k' : Nat)
    (h : a.action = "add_node" ∨ a.action = "add_edge" ∨
      a.action = "add_property") :
    applyAction ids' ⟨(applyAction ids st a).nodes,
      (applyAction ids st a).edges, k'⟩ a =
      ⟨(applyAction ids st a).nodes, (applyAction ids st a).edges, k'⟩ := by
  rcases h with h | h | h
  · simp only [applyAction, h]
    exact applyAddNode_idem ids ids' st a k'
  · simp only [applyAction, h]
    exact applyAddEdge_idem ids ids' st a k'
  · simp only [applyAction, h]
    exact applyAddProperty_idem ids ids' st a k'

/-- `C2`: for a single `add_node`, `add_edge` or `add_property` action,
re-applying it to the already-updated graph (as a second batch, under any
fresh-id supply) changes neither the node list nor the edge list. -/
theorem applyActions_idempotent (ids ids' : Nat → String) (nodes : List Node)
    (edges : List Edge) (a : ChatAction)
    (h : a.action = "add_node" ∨ a.action = "add_edge" ∨
      a.action = "add_property") :
    applyActions ids' (applyActions ids nodes edges [a]).1
      (applyActions ids nodes edges [a]).2 [a] =
      applyActions ids nodes edges [a] := by
  have e : ∀ (f : Nat → String) (ns : List Node) (es : List Edge),
      applyActions f ns es [a] =
        ((applyAction f ⟨ns, es, 0⟩ a).nodes, (applyAction f ⟨ns, es, 0⟩ a).edges) :=
    fun _ _ _ => rfl
  simp only [e]
  exact congrArg (fun s => (s.nodes, s.edges))
    (applyAction_idem ids ids' ⟨nodes, edges, 0⟩ a 0 h)

/-- Witness for `C2`: `add_node(Cat, parent Animal)` applied twice. -/
theorem applyActions_idempotent_witness :
    applyActions ids0
      (applyActions ids0 [nAnimal] []
        [{ action := "add_node", label := some "Cat", parent := some "Animal" }]).1
      (applyActions ids0 [nAnimal] []
        [{ action := "add_node", label := some "Cat", parent := some "Animal" }]).2
      [{ action := "add_node", label := some "Cat", parent := some "Animal" }] =
      applyActions ids0 [nAnimal] []
        [{ action := "add_node", label := some "Cat", parent := some "Animal" }] :=
  applyActions_idempotent ids0 ids0 [nAnimal] []
    { action := "add_node", label := some "Cat", parent := some "Animal" }
    (Or.inl rfl)

/-- `C6` (amended): on a graph that contains a class labelled `Dog` whose
resolved node has no outgoing edge labelled `breed` yet, applying
`add_property(class=Dog, property=breed)` twice yields exactly one `breed`
edge out of that node, and it points at the shared `String` node (created
on the first application when absent). -/
theorem addProperty_twice_unique (ids ids' : Nat → String)
    (nodes : List Node) (edges : List Edge) (d : Node)
    (hfd : findNodeByLabel nodes "Dog" = some d)
    (hnp : edges.find? (fun e => e.source == d.id && e.label == some "breed") = none) :
    ∃ (s : Node) (e : Edge),
      findNodeByLabel
        (applyActions ids'
          (applyActions ids nodes edges
            [{ action := "add_property", «class» := some "Dog",
               property := some "breed" }]).1
          (applyActions ids nodes edges
            [{ action := "add_property", «class» := some "Dog",
               property := some "breed" }]).2
          [{ action := "add_property", «class» := some "Dog",
             property := some "breed" }]).1 "String" = some s ∧
      (applyActions ids'
          (applyActions ids nodes edges
            [{ action := "add_property", «class» := some "Dog",
               property := some "breed" }]).1
          (applyActions ids nodes edges
            [{ action := "add_property", «class» := some "Dog",
               property := some "breed" }]).2
          [{ action := "add_property", «class» := some "Dog",
             property := some "breed" }]).2.filter
        (fun e => e.source == d.id && e.label == some "breed") = [e] ∧
      e.target = some s.id := by
  set a : ChatAction :=
    { action := "add_property", «class» := some "Dog", property := some "breed" }
    with ha
  have e1 : ∀ (f : Nat → String) (ns : List Node) (es : List Edge),
      applyActions f ns es [a] =
        ((applyAction f ⟨ns, es, 0⟩ a).nodes, (applyAction f ⟨ns, es, 0⟩ a).edges) :=
    fun _ _ _ => rfl
  have e2 : ∀ (f : Nat → String) (stp : ApplyState),
      applyAction f stp a = applyAddProperty f stp a := fun _ _ => rfl
  simp only [e1, e2]
  have hfilter : edges.filter (fun e => e.source == d.id && e.label == some "breed") = [] := by
    rw [List.filter_eq_nil_iff]
    intro e he
    have := List.find?_eq_none.mp hnp e he
    simpa using this
  have hc : a.«class» = some "Dog" := rfl
  have hp : a.property = some "breed" := rfl
  cases hfs : findNodeByLabel nodes "String" with
  | some s0 =>
    rw [applyAddProperty_new_strSome ids ⟨nodes, edges, 0⟩ hc (by decide) hp
      (by decide) hfd hfs hnp]
    rw [applyAddProperty_noop ids' _ hc (by decide) hp (by decide) hfd hfs
      (find?_append_isSome_right _ (by simp))]
    refine ⟨s0, { id := ids 0, source := d.id, target := some s0.id,
                  label := some "breed" }, hfs, ?_, rfl⟩
    rw [List.filter_append, hfilter]
    simp
  | none =>
    rw [applyAddProperty_new_strNone ids ⟨nodes, edges, 0⟩ hc (by decide) hp
      (by decide) hfd hfs hnp]
    rw [applyAddProperty_noop ids' _ hc (by decide) hp (by decide)
      (findNodeByLabel_append_of_some _ hfd)
      (by rw [findNodeByLabel_append_of_none _ hfs]
          exact findNodeByLabel_single _ rfl)
      (find?_append_isSome_right _ (by simp))]
    refine ⟨mkStringNode ids ⟨nodes, edges, 0⟩,
      { id := ids 1, source := d.id,
        target := some (mkStringNode ids ⟨nodes, edges, 0⟩).id,
        label := some "breed" }, ?_, ?_, rfl⟩
    · show findNodeByLabel (nodes ++ [mkStringNode ids ⟨nodes, edges, 0⟩]) "String" = _
      rw [findNodeByLabel_append_of_none _ hfs]
      exact findNodeByLabel_single _ rfl
    · show (edges ++ [_]).filter _ = _
      rw [List.filter_append, hfilter]
      simp

/-- Witness for `C6`'s amended theorem, on the two-class graph with no
pre-existing `breed` edge. -/
theorem addProperty_twice_unique_witness :
    ∃ (s : Node) (e : Edge),
      findNodeByLabel
        (applyActions ids0
          (applyActions ids0 [nDog, nAnimal] []
            [{ action := "add_property", «class» := some "Dog",
               property := some "breed" }]).1
          (applyActions ids0 [nDog, nAnimal] []
            [{ action := "add_property", «class» := some "Dog",
               property := some "breed" }]).2
          [{ action := "add_property", «class» := some "Dog",
             property := some "breed" }]).1 "String" = some s ∧
      (applyActions ids0
          (applyActions ids0 [nDog, nAnimal] []
            [{ action := "add_property", «class» := some "Dog",
               property := some "breed" }]).1
          (applyActions ids0 [nDog, nAnimal] []
            [{ action := "add_property", «class» := some "Dog",
               property := some "breed" }]).2
          [{ action := "add_property", «class» := some "Dog",
             property := some "breed" }]).2.filter
        (fun e => e.source == nDog.id && e.label == some "breed") = [e] ∧
      e.target = some s.id :=
  addProperty_twice_unique ids0 ids0 [nDog, nAnimal] [] nDog (by decide) rfl

/-- Counterexample to `C6` as stated: the graph contains `Dog`, but `Dog`
already has a `breed` edge pointing at `Animal`.  Applying
`add_property(Dog, breed)` twice creates the shared `String` class yet
leaves the edge list untouched, so there is no `breed` edge from `Dog` to
`String` at all — not exactly one. -/
theorem addProperty_preexisting_cex :
    findNodeByLabel [nDog, nAnimal] "Dog" = some nDog ∧
    (applyActions ids0
        (applyActions ids0 [nDog, nAnimal] [eBreed]
          [{ action := "add_property", «class» := some "Dog",
             property := some "breed" }]).1
        (applyActions ids0 [nDog, nAnimal] [eBreed]
          [{ action := "add_property", «class» := some "Dog",
             property := some "breed" }]).2
        [{ action := "add_property", «class» := some "Dog",
           property := some "breed" }]).2 = [eBreed] ∧
    findNodeByLabel
      (applyActions ids0
        (applyActions ids0 [nDog, nAnimal] [eBreed]
          [{ action := "add_property", «class» := some "Dog",
             property := some "breed" }]).1
        (applyActions ids0 [nDog, nAnimal] [eBreed]
          [{ action := "add_property", «class» := some "Dog",
             property := some "breed" }]).2
        [{ action := "add_property", «class» := some "Dog",
           property := some "breed" }]).1 "String" =
      some { id := "gen-0", type := some "default", data := { label := some "String" } } ∧
    eBreed.target ≠
      some ("gen-0" : String) := by
  decide

/-- Counterexample to `C5` as stated: two edges with the same predicate
`eats` (and resolvable endpoints) produce two `owl:ObjectProperty`
declarations for `:eats` in the Turtle output, so a predicate is not
declared at most once. -/
theorem turtle_redeclares_cex :
    eEats.label = some "eats" ∧ eEatsRev.label = some "eats" ∧
    (turtleLines [nAnimal, nDog] [eEats, eEatsRev]).count
      ":eats a owl:ObjectProperty ;" = 2 := by
  decide

theorem applyActions_single (ids : Nat → String) (nodes : List Node)
    (edges : List Edge) (a : ChatAction) :
    applyActions ids nodes edges [a] =
      ((applyAction ids ⟨nodes, edges, 0⟩ a).nodes,
       (applyAction ids ⟨nodes, edges, 0⟩ a).edges) := rfl

/-- `C1` (amended): with both labels resolved, the applier rejects the new
edge exactly when some edge with the same `(source, target)` node pair
already exists, whatever that edge's predicate; otherwise it appends the
new edge. -/
theorem addEdge_rejects_iff_pair_exists (ids : Nat → String)
    (nodes : List Node) (edges : List Edge) (a : ChatAction) (s t : String)
    (sn tn : Node)
    (ha : a.action = "add_edge") (hs : a.source = some s) (hs0 : s ≠ "")
    (ht : a.target = some t) (ht0 : t ≠ "")
    (hfs : findNodeByLabel nodes s = some sn)
    (hft : findNodeByLabel nodes t = some tn) :
    ((∃ e ∈ edges, e.source = sn.id ∧ e.target = some tn.id) →
        applyActions ids nodes edges [a] = (nodes, edges)) ∧
    ((∀ e ∈ edges, ¬ (e.source = sn.id ∧ e.target = some tn.id)) →
        applyActions ids nodes edges [a] =
          (nodes, edges ++ [{ id := ids 0, source := sn.id, target := some tn.id,
                              label := some (if strFalsy a.label then "relatedTo"
                                else a.label.getD "relatedTo") }])) := by
  rw [applyActions_single]
  simp only [applyAction, ha, applyAddEdge, hs, ht, strFalsy]
  rw [if_neg (by simp [hs0, ht0])]
  simp only [hfs, hft]
  constructor
  · rintro ⟨e, he, h1, h2⟩
    have : (edges.find? fun e => e.source == sn.id && e.target == some tn.id).isSome := by
      rw [List.find?_isSome]
      exact ⟨e, he, by simp [h1, h2]⟩
    obtain ⟨w, hw⟩ := Option.isSome_iff_exists.mp this
    simp [hw]
  · intro h
    have : edges.find? (fun e => e.source == sn.id && e.target == some tn.id) = none := by
      rw [List.find?_eq_none]
      intro e he
      have := h e he
      simp only [not_and] at this
      by_cases h1 : e.source = sn.id
      · simp [h1, this h1]
      · simp [h1]
    simp [this]

/-- Witness for `C1`'s amended theorem: a `Dog eats Animal` edge blocks
`add_edge(Dog, Animal, likes)`. -/
theorem addEdge_rejects_iff_pair_exists_concrete :
    applyActions ids0 [nDog, nAnimal] [eEats]
      [{ action := "add_edge", source := some "Dog", target := some "Animal",
         label := some "likes" }] = ([nDog, nAnimal], [eEats]) := by
  have h := (addEdge_rejects_iff_pair_exists ids0 [nDog, nAnimal] [eEats]
    { action := "add_edge", source := some "Dog", target := some "Animal",
      label := some "likes" }
    "Dog" "Animal" nDog nAnimal rfl rfl (by decide) rfl (by decide)
    (by decide) (by decide)).1
  exact h ⟨eEats, by decide⟩

/-- Counterexample to `C1` as stated: no edge with the identical
`(source, predicate, target)` triple `(Dog, likes, Animal)` exists, the
only Dog→Animal edge being labelled `eats`, yet the applier still rejects
the new `likes` edge as a no-op instead of adding it. -/
theorem addEdge_predicate_ignored_cex :
    (∀ e ∈ [eEats], ¬ (e.source = nDog.id ∧ e.label = some "likes" ∧
        e.target = some nAnimal.id)) ∧
    applyActions ids0 [nDog, nAnimal] [eEats]
      [{ action := "add_edge", source := some "Dog", target := some "Animal",
         label := some "likes" }] = ([nDog, nAnimal], [eEats]) := by
  decide

/-- `C4`: with both labels resolved, `remove_edge` keeps exactly the edges
whose `(source, target)` pair differs from the resolved pair — the
predicate is never consulted, so parallel edges fall together. -/
theorem removeEdge_removes_all_predicates (ids : Nat → String)
    (nodes : List Node) (edges : List Edge) (a : ChatAction) (s t : String)
    (sn tn : Node)
    (ha : a.action = "remove_edge") (hs : a.source = some s) (hs0 : s ≠ "")
    (ht : a.target = some t) (ht0 : t ≠ "")
    (hfs : findNodeByLabel nodes s = some sn)
    (hft : findNodeByLabel nodes t = some tn) :
    applyActions ids nodes edges [a] =
      (nodes, edges.filter (fun e => ¬ (e.source = sn.id ∧ e.target = some tn.id))) := by
  rw [applyActions_single]
  simp only [applyAction, ha, applyRemoveEdge, hs, ht, strFalsy]
  rw [if_neg (by simp [hs0, ht0])]
  simp [hfs, hft]

/-- Witness for `C4`: two parallel `Dog → Animal` edges with predicates
`eats` and `likes` are both removed by one `remove_edge(Dog, Animal)`. -/
theorem removeEdge_removes_all_predicates_concrete :
    applyActions ids0 [nAnimal, nDog] [eEats, eLikes]
      [{ action := "remove_edge", source := some "Dog", target := some "Animal" }] =
      ([nAnimal, nDog], []) := by
  have h := removeEdge_removes_all_predicates ids0 [nAnimal, nDog] [eEats, eLikes]
    { action := "remove_edge", source := some "Dog", target := some "Animal" }
    "Dog" "Animal" nDog nAnimal rfl rfl (by decide) rfl (by decide)
    (by decide) (by decide)
  exact h.trans (by decide)

/-- `C9`: on nodes `Animal`, `Dog` with the single edge
`Dog subClassOf Animal`, the hierarchy is exactly `Animal` at depth 0 then
`Dog` at depth 1, and neither group carries any property row. -/
theorem buildHierarchy_animal_dog :
    buildHierarchy [nAnimal, nDog] [eSub] =
      [{ nodeId := "n1", label := "Animal", depth := 0, properties := [] },
       { nodeId := "n2", label := "Dog", depth := 1, properties := [] }] := by
  decide

theorem edgeRefsOk_mono_nodes {ns ms : List Node} {es : List Edge}
    (h : edgeRefsOk ns es) : edgeRefsOk (ns ++ ms) es := by
  intro e he
  obtain ⟨h1, h2⟩ := h e he
  rw [List.map_append]
  exact ⟨List.mem_append_left _ h1, fun t ht => List.mem_append_left _ (h2 t ht)⟩

theorem edgeRefsOk_filter_edges {ns : List Node} {es : List Edge}
    {p : Edge → Bool} (h : edgeRefsOk ns es) : edgeRefsOk ns (es.filter p) :=
  fun e he => h e (List.mem_of_mem_filter he)

theorem edgeRefsOk_push {ns : List Node} {es : List Edge} {E : Edge}
    (h : edgeRefsOk ns es) (h1 : E.source ∈ ns.map Node.id)
    (h2 : ∀ t, E.target = some t → t ∈ ns.map Node.id) :
    edgeRefsOk ns (es ++ [E]) := by
  intro e he
  rcases List.mem_append.mp he with he | he
  · exact h e he
  · rw [List.mem_singleton] at he
    subst he
    exact ⟨h1, h2⟩

theorem mem_id_map_of_findNodeByLabel {ns : List Node} {l : String} {n : Node}
    (h : findNodeByLabel ns l = some n) : n.id ∈ ns.map Node.id :=
  List.mem_map.mpr ⟨n, List.mem_of_find?_eq_some h, rfl⟩

theorem edgeRefsOk_remove {ns : List Node} {es : List Edge} (X : Node)
    (h : edgeRefsOk ns es) :
    edgeRefsOk (ns.filter (fun n => ¬ n.id = X.id))
      (es.filter (fun e => ¬ e.source = X.id ∧ ¬ e.target = some X.id)) := by
  intro e he
  rw [List.mem_filter] at he
  obtain ⟨he, hpred⟩ := he
  simp only [decide_eq_true_eq] at hpred
  obtain ⟨hs, ht⟩ := hpred
  obtain ⟨h1, h2⟩ := h e he
  constructor
  · rw [List.mem_map] at h1 ⊢
    obtain ⟨n, hn, hid⟩ := h1
    refine ⟨n, List.mem_filter.mpr ⟨hn, by simp [hid, hs]⟩, hid⟩
  · intro t htg
    have h2t := h2 t htg
    rw [List.mem_map] at h2t ⊢
    obtain ⟨n, hn, hid⟩ := h2t
    have htX : ¬ t = X.id := fun hteq => ht (by rw [htg, hteq])
    refine ⟨n, List.mem_filter.mpr ⟨hn, by simp [hid, htX]⟩, hid⟩

theorem applyAddNode_refs (ids : Nat → String) (st : ApplyState)
    (a : ChatAction) (h : edgeRefsOk st.nodes st.edges) :
    edgeRefsOk (applyAddNode ids st a).nodes (applyAddNode ids st a).edges := by
  cases hl : a.label with
  | none => rw [applyAddNode_falsy ids st (by simp [hl, strFalsy])]; exact h
  | some l =>
    by_cases hl0 : l = ""
    · rw [applyAddNode_falsy ids st (by simp [hl, strFalsy, hl0])]; exact h
    · cases hf : findNodeByLabel st.nodes l with
      | some n => rw [applyAddNode_found ids st hl hl0 hf]; exact h
      | none =>
        unfold applyAddNode
        rw [hl]
        rw [if_neg (by simp [strFalsy, hl0])]
        simp only [hf]
        cases hp : a.parent with
        | none =>
          rw [if_pos (by simp [strFalsy])]
          exact edgeRefsOk_mono_nodes h
        | some p =>
          by_cases hp0 : p = ""
          · rw [if_pos (by simp [strFalsy, hp0])]
            exact edgeRefsOk_mono_nodes h
          · rw [if_neg (by simp [strFalsy, hp0])]
            cases hfp : findNodeByLabel (st.nodes ++
                [{ id := ids st.idCounter, type := some "default",
                   data := { label := some l } }]) p with
            | none =>
              simp only [hfp]
              exact edgeRefsOk_mono_nodes h
            | some parentNode =>
              simp only [hfp]
              refine edgeRefsOk_push (edgeRefsOk_mono_nodes h) ?_ ?_
              · rw [List.map_append]
                exact List.mem_append_right _ (by simp)
              · intro t htg
                have := mem_id_map_of_findNodeByLabel hfp
                simp only [Option.some.injEq] at htg
                rw [← htg]
                exact this

theorem applyRemoveNode_falsy {a : ChatAction} (st : ApplyState)
    (h : strFalsy a.label = true) : applyRemoveNode st a = st := by
  unfold applyRemoveNode
  rw [if_pos h]

theorem applyRemoveNode_notfound {a : ChatAction} (st : ApplyState)
    {l : String} (hl : a.label = some l) (hl0 : ¬ l = "")
    (hf : findNodeByLabel st.nodes l = none) : applyRemoveNode st a = st := by
  unfold applyRemoveNode
  rw [hl]
  rw [if_neg (by simp [strFalsy, hl0])]
  simp [hf]

theorem applyRemoveNode_found {a : ChatAction} (st : ApplyState)
    {l : String} {X : Node} (hl : a.label = some l) (hl0 : ¬ l = "")
    (hf : findNodeByLabel st.nodes l = some X) :
    applyRemoveNode st a =
      ⟨st.nodes.filter (fun n => ¬ n.id = X.id),
       st.edges.filter (fun e => ¬ e.source = X.id ∧ ¬ e.target = some X.id),
       st.idCounter⟩ := by
  unfold applyRemoveNode
  rw [hl]
  rw [if_neg (by simp [strFalsy, hl0])]
  simp [hf]

theorem applyRemoveNode_refs (st : ApplyState) (a : ChatAction)
    (h : edgeRefsOk st.nodes st.edges) :
    edgeRefsOk (applyRemoveNode st a).nodes (applyRemoveNode st a).edges := by
  cases hl : a.label with
  | none => rw [applyRemoveNode_falsy st (by simp [hl, strFalsy])]; exact h
  | some l =>
    by_cases hl0 : l = ""
    · rw [applyRemoveNode_falsy st (by simp [hl, strFalsy, hl0])]; exact h
    · cases hf : findNodeByLabel st.nodes l with
      | none => rw [applyRemoveNode_notfound st hl hl0 hf]; exact h
      | some X =>
        rw [applyRemoveNode_found st hl hl0 hf]
        exact edgeRefsOk_remove X h

theorem applyAddEdge_refs (ids : Nat → String) (st : ApplyState)
    (a : ChatAction) (h : edgeRefsOk st.nodes st.edges) :
    edgeRefsOk (applyAddEdge ids st a).nodes (applyAddEdge ids st a).edges := by
  cases hs : a.source with
  | none => rw [applyAddEdge_falsy ids st (Or.inl (by simp [hs, strFalsy]))]; exact h
  | some s =>
    by_cases hs0 : s = ""
    · rw [applyAddEdge_falsy ids st (Or.inl (by simp [hs, strFalsy, hs0]))]; exact h
    · cases ht : a.target with
      | none => rw [applyAddEdge_falsy ids st (Or.inr (by simp [ht, strFalsy]))]; exact h
      | some t =>
        by_cases ht0 : t = ""
        · rw [applyAddEdge_falsy ids st (Or.inr (by simp [ht, strFalsy, ht0]))]; exact h
        · cases hfs : findNodeByLabel st.nodes s with
          | none =>
            rw [applyAddEdge_unresolved ids st hs hs0 ht ht0 (Or.inl hfs)]; exact h
          | some sn =>
            cases hft : findNodeByLabel st.nodes t with
            | none =>
              rw [applyAddEdge_unresolved ids st hs hs0 ht ht0 (Or.inr hft)]; exact h
            | some tn =>
              cases hdup : st.edges.find?
                  (fun e => e.source == sn.id && e.target == some tn.id) with
              | some w =>
                rw [applyAddEdge_dup ids st hs hs0 ht ht0 hfs hft (by rw [hdup]; rfl)]
                exact h
              | none =>
                rw [applyAddEdge_new ids st hs hs0 ht ht0 hfs hft hdup]
                refine edgeRefsOk_push h (mem_id_map_of_findNodeByLabel hfs) ?_
                intro u hu
                simp only [Option.some.injEq] at hu
                rw [← hu]
                exact mem_id_map_of_findNodeByLabel hft

theorem applyRemoveEdge_falsy {a : ChatAction} (st : ApplyState)
    (h : strFalsy a.source = true ∨ strFalsy a.target = true) :
    applyRemoveEdge st a = st := by
  unfold applyRemoveEdge
  rw [if_pos h]

theorem applyRemoveEdge_unresolved {a : ChatAction} (st : ApplyState)
    {s t : String} (hs : a.source = some s) (hs0 : ¬ s = "")
    (ht : a.target = some t) (ht0 : ¬ t = "")
    (hu : findNodeByLabel st.nodes s = none ∨
      findNodeByLabel st.nodes t = none) : applyRemoveEdge st a = st := by
  unfold applyRemoveEdge
  rw [hs, ht]
  rw [if_neg (by simp [strFalsy, hs0, ht0])]
  cases hfs : findNodeByLabel st.nodes s with
  | none => simp [hfs]
  | some sn =>
    cases hft : findNodeByLabel st.nodes t with
    | none => simp [hfs, hft]
    | some tn => simp_all

theorem applyRemoveEdge_found {a : ChatAction} (st : ApplyState)
    {s t : String} {sn tn : Node}
    (hs : a.source = some s) (hs0 : ¬ s = "")
    (ht : a.target = some t) (ht0 : ¬ t = "")
    (hfs : findNodeByLabel st.nodes s = some sn)
    (hft : findNodeByLabel st.nodes t = some tn) :
    applyRemoveEdge st a =
      ⟨st.nodes,
       st.edges.filter (fun e => ¬ (e.source = sn.id ∧ e.target = some tn.id)),
       st.idCounter⟩ := by
  unfold applyRemoveEdge
  rw [hs, ht]
  rw [if_neg (by simp [strFalsy, hs0, ht0])]
  simp [hfs, hft]

theorem applyRemoveEdge_refs (st : ApplyState) (a : ChatAction)
    (h : edgeRefsOk st.nodes st.edges) :
    edgeRefsOk (applyRemoveEdge st a).nodes (applyRemoveEdge st a).edges := by
  cases hs : a.source with
  | none => rw [applyRemoveEdge_falsy st (Or.inl (by simp [hs, strFalsy]))]; exact h
  | some s =>
    by_cases hs0 : s = ""
    · rw [applyRemoveEdge_falsy st (Or.inl (by simp [hs, strFalsy, hs0]))]; exact h
    · cases ht : a.target with
      | none => rw [applyRemoveEdge_falsy st (Or.inr (by simp [ht, strFalsy]))]; exact h
      | some t =>
        by_cases ht0 : t = ""
        · rw [applyRemoveEdge_falsy st (Or.inr (by simp [ht, strFalsy, ht0]))]
          exact h
        · cases hfs : findNodeByLabel st.nodes s with
          | none => rw [applyRemoveEdge_unresolved st hs hs0 ht ht0 (Or.inl hfs)]; exact h
          | some sn =>
            cases hft : findNodeByLabel st.nodes t with
            | none => rw [applyRemoveEdge_unresolved st hs hs0 ht ht0 (Or.inr hft)]; exact h
            | some tn =>
              rw [applyRemoveEdge_found st hs hs0 ht ht0 hfs hft]
              exact edgeRefsOk_filter_edges h

theorem applyAddProperty_refs (ids : Nat → String) (st : ApplyState)
    (a : ChatAction) (h : edgeRefsOk st.nodes st.edges) :
    edgeRefsOk (applyAddProperty ids st a).nodes (applyAddProperty ids st a).edges := by
  cases hc : a.«class» with
  | none => rw [applyAddProperty_falsy ids st (Or.inl (by simp [hc, strFalsy]))]; exact h
  | some c =>
    by_cases hc0 : c = ""
    · rw [applyAddProperty_falsy ids st (Or.inl (by simp [hc, strFalsy, hc0]))]; exact h
    · cases hp : a.property with
      | none => rw [applyAddProperty_falsy ids st (Or.inr (by simp [hp, strFalsy]))]; exact h
      | some p =>
        by_cases hp0 : p = ""
        · rw [applyAddProperty_falsy ids st (Or.inr (by simp [hp, strFalsy, hp0]))]
          exact h
        · cases hfc : findNodeByLabel st.nodes c with
          | none => rw [applyAddProperty_unresolved ids st hc hc0 hp hp0 hfc]; exact h
          | some cn =>
            cases hfs : findNodeByLabel st.nodes "String" with
            | some s0 =>
              cases hdup : st.edges.find?
                  (fun e => e.source == cn.id && e.label == some p) with
              | some w =>
                rw [applyAddProperty_noop ids st hc hc0 hp hp0 hfc hfs
                  (by rw [hdup]; rfl)]
                exact h
              | none =>
                rw [applyAddProperty_new_strSome ids st hc hc0 hp hp0 hfc hfs hdup]
                refine edgeRefsOk_push h (mem_id_map_of_findNodeByLabel hfc) ?_
                intro u hu
                simp only [Option.some.injEq] at hu
                rw [← hu]
                exact mem_id_map_of_findNodeByLabel hfs
            | none =>
              cases hdup : st.edges.find?
                  (fun e => e.source == cn.id && e.label == some p) with
              | some w =>
                rw [applyAddProperty_dup_strNone ids st hc hc0 hp hp0 hfc hfs hdup]
                exact edgeRefsOk_mono_nodes h
              | none =>
                rw [applyAddProperty_new_strNone ids st hc hc0 hp hp0 hfc hfs hdup]
                refine edgeRefsOk_push (edgeRefsOk_mono_nodes h) ?_ ?_
                · exact mem_id_map_of_findNodeByLabel
                    (findNodeByLabel_append_of_some _ hfc)
                · intro u hu
                  simp only [Option.some.injEq] at hu
                  rw [← hu, List.map_append]
                  exact List.mem_append_right _ (by simp [mkStringNode])

theorem applyAction_refs (ids : Nat → String) (st : ApplyState)
    (a : ChatAction) (h : edgeRefsOk st.nodes st.edges) :
    edgeRefsOk (applyAction ids st a).nodes (applyAction ids st a).edges := by
  unfold applyAction
  split
  · exact applyAddNode_refs ids st a h
  · exact applyRemoveNode_refs st a h
  · exact applyAddEdge_refs ids st a h
  · exact applyRemoveEdge_refs st a h
  · exact applyAddProperty_refs ids st a h
  · exact h

theorem foldl_applyAction_refs (ids : Nat → String) (actions : List ChatAction) :
    ∀ st : ApplyState, edgeRefsOk st.nodes st.edges →
      edgeRefsOk (actions.foldl (applyAction ids) st).nodes
        (actions.foldl (applyAction ids) st).edges := by
  induction actions with
  | nil => intro st h; exact h
  | cons a rest ih =>
    intro st h
    exact ih _ (applyAction_refs ids st a h)

/-- `C10`: `applyActions` preserves the no-dangling-edge invariant — if
every edge of the input refers only to node ids present in the input node
list, the same holds of the output. -/
theorem applyActions_no_dangling (ids : Nat → String) (nodes : List Node)
    (edges : List Edge) (actions : List ChatAction)
    (h : edgeRefsOk nodes edges) :
    edgeRefsOk (applyActions ids nodes edges actions).1
      (applyActions ids nodes edges actions).2 :=
  foldl_applyAction_refs ids actions ⟨nodes, edges, 0⟩ h

/-- Witness for `C10`: the invariant holds after a batch that adds a node
under a parent, adds an edge, adds a property and removes a node. -/
theorem applyActions_no_dangling_witness :
    edgeRefsOk
      (applyActions ids0 [nAnimal, nDog] [eSub]
        [{ action := "add_node", label := some "Cat", parent := some "Animal" },
         { action := "add_edge", source := some "Cat", target := some "Dog" },
         { action := "add_property", «class» := some "Dog", property := some "breed" },
         { action := "remove_node", label := some "Animal" }]).1
      (applyActions ids0 [nAnimal, nDog] [eSub]
        [{ action := "add_node", label := some "Cat", parent := some "Animal" },
         { action := "add_edge", source := some "Cat", target := some "Dog" },
         { action := "add_property", «class» := some "Dog", property := some "breed" },
         { action := "remove_node", label := some "Animal" }]).2 :=
  applyActions_no_dangling ids0 [nAnimal, nDog] [eSub] _ (by
    intro e he
    rw [List.mem_singleton] at he
    subst he
    refine ⟨by decide, ?_⟩
    intro t ht
    simp only [eSub, Option.some.injEq] at ht
    rw [← ht]
    decide)


theorem length_filter_le_of_imp {α : Type} (U : List α) (p q : α → Bool)
    (h : ∀ x, p x = true → q x = true) :
    (U.filter p).length ≤ (U.filter q).length := by
  induction U with
  | nil => simp
  | cons x xs ih =>
    by_cases hp : p x = true
    · have hq := h x hp
      simp only [List.filter_cons, hp, hq, if_pos trivial, List.length_cons]
      exact Nat.succ_le_succ ih
    · rw [List.filter_cons, if_neg (by simpa using hp)]
      by_cases hq : q x = true
      · rw [List.filter_cons, if_pos (by simpa using hq), List.length_cons]
        exact Nat.le_succ_of_le ih
      · rw [List.filter_cons, if_neg (by simpa using hq)]
        exact ih

theorem length_filter_notmem_cons_lt (U : List String) (x : String)
    (visited : List String) (hxU : x ∈ U) (hxv : ¬ x ∈ visited) :
    (U.filter (fun y => ¬ y ∈ x :: visited)).length <
      (U.filter (fun y => ¬ y ∈ visited)).length := by
  induction U with
  | nil => cases hxU
  | cons a as ih =>
    have hmono : (as.filter (fun y => ¬ y ∈ x :: visited)).length ≤
        (as.filter (fun y => ¬ y ∈ visited)).length := by
      refine length_filter_le_of_imp as _ _ ?_
      intro y hy
      simp only [decide_eq_true_eq] at hy ⊢
      exact fun hmem => hy (List.mem_cons_of_mem _ hmem)
    by_cases hax : a = x
    · subst hax
      rw [List.filter_cons, if_neg (by simp), List.filter_cons,
        if_pos (by simpa using hxv), List.length_cons]
      exact Nat.lt_succ_of_le hmono
    · have haU : x ∈ as := by
        rcases List.mem_cons.mp hxU with h | h
        · exact absurd h.symm hax
        · exact h
      by_cases hav : a ∈ visited
      · rw [List.filter_cons, if_neg (by simp [hav]), List.filter_cons,
          if_neg (by simp [hav])]
        exact ih haU
      · rw [List.filter_cons, if_pos (by simp [List.mem_cons, hav, hax]),
          List.filter_cons, if_pos (by simpa using hav),
          List.length_cons, List.length_cons]
        exact Nat.succ_lt_succ (ih haU)

theorem find?_id_none_iff {nodes : List Node} {i : String} :
    nodes.find? (fun n => n.id == i) = none ↔ ¬ i ∈ nodes.map Node.id := by
  rw [List.find?_eq_none]
  constructor
  · intro h hmem
    rw [List.mem_map] at hmem
    obtain ⟨n, hn, hid⟩ := hmem
    exact h n hn (by simp [hid])
  · intro h n hn hb
    exact h (List.mem_map.mpr ⟨n, hn, by simpa using hb⟩)

theorem mem_id_map_of_find?_some {nodes : List Node} {i : String} {node : Node}
    (h : nodes.find? (fun n => n.id == i) = some node) :
    i ∈ nodes.map Node.id := by
  have hmem := List.mem_of_find?_eq_some h
  have hid : node.id = i := by simpa using List.find?_some h
  exact List.mem_map.mpr ⟨node, hmem, hid⟩

theorem dfsVisit_visited_mono (nodes : List Node) (edges : List Edge) :
    ∀ (fuel : Nat) (visited : List String) (stack : List (String × Nat))
      (result : List NodeGroup) (x : String), x ∈ visited →
      x ∈ (dfsVisit nodes edges fuel visited stack result).2 := by
  intro fuel
  induction fuel with
  | zero =>
    intro visited stack result x hx
    simpa [dfsVisit] using hx
  | succ fuel ih =>
    intro visited stack result x hx
    cases stack with
    | nil => simpa [dfsVisit] using hx
    | cons pr rest =>
      obtain ⟨i0, d⟩ := pr
      by_cases hv : i0 ∈ visited
      · simp only [dfsVisit, if_pos hv]
        exact ih _ _ _ x hx
      · simp only [dfsVisit, if_neg hv]
        cases hfind : nodes.find? (fun n => n.id == i0) with
        | none =>
          simp only [hfind]
          exact ih _ _ _ x (List.mem_cons_of_mem _ hx)
        | some node =>
          simp only [hfind]
          exact ih _ _ _ x (List.mem_cons_of_mem _ hx)


theorem countGroups_append_single (rs : List NodeGroup) (g : NodeGroup)
    (i : String) :
    countGroups (rs ++ [g]) i =
      countGroups rs i + (if g.nodeId = i then 1 else 0) := by
  unfold countGroups
  rw [List.filter_append, List.length_append]
  congr 1
  by_cases h : g.nodeId = i
  · simp [h]
  · simp [h]

/-- Each id gains exactly one group over a traversal: one when it was
freshly visited and names an existing node, zero otherwise. -/
theorem dfsVisit_count (nodes : List Node) (edges : List Edge) :
    ∀ (fuel : Nat) (visited : List String) (stack : List (String × Nat))
      (result : List NodeGroup) (i : String),
      countGroups (dfsVisit nodes edges fuel visited stack result).1 i =
        countGroups result i +
          (if i ∈ (dfsVisit nodes edges fuel visited stack result).2 ∧
              ¬ i ∈ visited ∧ i ∈ nodes.map Node.id
           then 1 else 0) := by
  intro fuel
  induction fuel with
  | zero =>
    intro visited stack result i
    simp [dfsVisit]
    intro h1 h2
    exact absurd h1 h2
  | succ fuel ih =>
    intro visited stack result i
    cases stack with
    | nil =>
      simp [dfsVisit]
      intro h1 h2
      exact absurd h1 h2
    | cons pr rest =>
      obtain ⟨i0, d⟩ := pr
      by_cases hv : i0 ∈ visited
      · simp only [dfsVisit, if_pos hv]
        exact ih visited rest result i
      · simp only [dfsVisit, if_neg hv]
        cases hfind : nodes.find? (fun n => n.id == i0) with
        | none =>
          simp only [hfind]
          rw [ih (i0 :: visited) rest result i]
          congr 1
          by_cases hii : i = i0
          · subst hii
            have hnid := find?_id_none_iff.mp hfind
            simp [hnid]
          · simp [List.mem_cons, hii]
        | some node =>
          simp only [hfind]
          rw [ih (i0 :: visited) _ _ i, countGroups_append_single]
          split_ifs with h1 h2 h3 h4 h5 h6 h7 <;> try omega
          · exfalso
            have hi : i0 = i := h1
            exact h2.2.1 (by rw [← hi]; exact List.mem_cons_self _ _)
          · exfalso
            have hi : i0 = i := h1
            exact h2.2.1 (by rw [← hi]; exact List.mem_cons_self _ _)
          · exfalso
            have hi : i0 = i := h1
            refine h4 ⟨?_, ?_, ?_⟩
            · exact dfsVisit_visited_mono nodes edges fuel _ _ _ i
                (by rw [← hi]; exact List.mem_cons_self _ _)
            · rw [← hi]; exact hv
            · rw [← hi]; exact mem_id_map_of_find?_some hfind
          · exfalso
            exact h6 ⟨h5.1, fun hm => h5.2.1 (List.mem_cons_of_mem _ hm), h5.2.2⟩
          · exfalso
            exact h5 ⟨h7.1, fun hm => (List.mem_cons.mp hm).elim
              (fun he => h1 he.symm) h7.2.1, h7.2.2⟩

theorem dfsMeasure_cons (nodes : List Node) (edges : List Edge)
    (visited : List String) (pr : String × Nat) (rest : List (String × Nat)) :
    dfsMeasure nodes edges visited (pr :: rest) =
      dfsMeasure nodes edges visited rest + 1 := by
  unfold dfsMeasure
  simp only [List.length_cons]
  omega

theorem dfsMeasure_mark_le (nodes : List Node) (edges : List Edge)
    (visited : List String) (i0 : String) (rest : List (String × Nat)) :
    dfsMeasure nodes edges (i0 :: visited) rest ≤
      dfsMeasure nodes edges visited rest := by
  unfold dfsMeasure
  have h := length_filter_le_of_imp (dfsUniverse nodes edges)
    (fun y => ¬ y ∈ i0 :: visited) (fun y => ¬ y ∈ visited)
    (fun x hx => by
      simp only [decide_eq_true_eq] at hx ⊢
      exact fun hmem => hx (List.mem_cons_of_mem _ hmem))
  have := Nat.mul_le_mul_right (edges.length + 1) h
  omega

/-- Marking a universe id strictly shrinks the unvisited budget, by enough
to pay for its pushed children. -/
theorem dfsMeasure_mark_children_lt (nodes : List Node) (edges : List Edge)
    (visited : List String) (i0 : String) (d : Nat)
    (rest : List (String × Nat))
    (hU : i0 ∈ dfsUniverse nodes edges) (hv : ¬ i0 ∈ visited) :
    dfsMeasure nodes edges (i0 :: visited)
        ((childrenOf edges i0).map (fun c => (c, d + 1)) ++ rest) <
      dfsMeasure nodes edges visited rest + 1 := by
  have hstrict := length_filter_notmem_cons_lt (dfsUniverse nodes edges) i0 visited hU hv
  have hc : ((childrenOf edges i0).map (fun c => (c, d + 1))).length ≤ edges.length := by
    rw [List.length_map]
    unfold childrenOf
    rw [List.length_map]
    exact List.length_filter_le _ _
  unfold dfsMeasure
  rw [List.length_append]
  set F1 := ((dfsUniverse nodes edges).filter (fun y => ¬ y ∈ i0 :: visited)).length
  set F := ((dfsUniverse nodes edges).filter (fun y => ¬ y ∈ visited)).length
  have hmul : F1 * (edges.length + 1) + (edges.length + 1) ≤ F * (edges.length + 1) := by
    have h1 : F1 + 1 ≤ F := hstrict
    calc F1 * (edges.length + 1) + (edges.length + 1)
        = (F1 + 1) * (edges.length + 1) := by ring
      _ ≤ F * (edges.length + 1) := Nat.mul_le_mul_right _ h1
  omega

/-- With enough fuel, every universe id on the work list ends up
visited. -/
theorem dfsVisit_covers (nodes : List Node) (edges : List Edge) :
    ∀ (fuel : Nat) (visited : List String) (stack : List (String × Nat))
      (result : List NodeGroup),
      dfsMeasure nodes edges visited stack ≤ fuel →
      ∀ i d, (i, d) ∈ stack → i ∈ dfsUniverse nodes edges →
        i ∈ (dfsVisit nodes edges fuel visited stack result).2 := by
  intro fuel
  induction fuel with
  | zero =>
    intro visited stack result hf i d hmem hiU
    cases stack with
    | nil => cases hmem
    | cons pr rest =>
      rw [dfsMeasure_cons] at hf
      omega
  | succ fuel ih =>
    intro visited stack result hf i d hmem hiU
    cases stack with
    | nil => cases hmem
    | cons pr rest =>
      obtain ⟨i0, d0⟩ := pr
      rw [dfsMeasure_cons] at hf
      by_cases hv : i0 ∈ visited
      · simp only [dfsVisit, if_pos hv]
        rcases List.mem_cons.mp hmem with heq | hmem2
        · have hi : i = i0 := congrArg Prod.fst heq
          exact dfsVisit_visited_mono nodes edges fuel _ _ _ i (hi ▸ hv)
        · exact ih visited rest result (by omega) i d hmem2 hiU
      · simp only [dfsVisit, if_neg hv]
        cases hfind : nodes.find? (fun n => n.id == i0) with
        | none =>
          simp only [hfind]
          rcases List.mem_cons.mp hmem with heq | hmem2
          · have hi : i = i0 := congrArg Prod.fst heq
            exact dfsVisit_visited_mono nodes edges fuel _ _ _ i
              (hi ▸ List.mem_cons_self _ _)
          · refine ih (i0 :: visited) rest result ?_ i d hmem2 hiU
            have := dfsMeasure_mark_le nodes edges visited i0 rest
            omega
        | some node =>
          simp only [hfind]
          rcases List.mem_cons.mp hmem with heq | hmem2
          · have hi : i = i0 := congrArg Prod.fst heq
            exact dfsVisit_visited_mono nodes edges fuel _ _ _ i
              (hi ▸ List.mem_cons_self _ _)
          · refine ih (i0 :: visited) _ _ ?_ i d (List.mem_append_right _ hmem2) hiU
            have hU0 : i0 ∈ dfsUniverse nodes edges := by
              unfold dfsUniverse
              exact List.mem_append_left _ (mem_id_map_of_find?_some hfind)
            have := dfsMeasure_mark_children_lt nodes edges visited i0 d0 rest hU0 hv
            omega


/-- Every emitted group names an existing node (or was already in the
accumulator). -/
theorem dfsVisit_groups (nodes : List Node) (edges : List Edge) :
    ∀ (fuel : Nat) (visited : List String) (stack : List (String × Nat))
      (result : List NodeGroup) (g : NodeGroup),
      g ∈ (dfsVisit nodes edges fuel visited stack result).1 →
      g ∈ result ∨ g.nodeId ∈ nodes.map Node.id := by
  intro fuel
  induction fuel with
  | zero =>
    intro visited stack result g hg
    exact Or.inl (by simpa [dfsVisit] using hg)
  | succ fuel ih =>
    intro visited stack result g hg
    cases stack with
    | nil => exact Or.inl (by simpa [dfsVisit] using hg)
    | cons pr rest =>
      obtain ⟨i0, d⟩ := pr
      by_cases hv : i0 ∈ visited
      · simp only [dfsVisit, if_pos hv] at hg
        exact ih _ _ _ g hg
      · simp only [dfsVisit, if_neg hv] at hg
        cases hfind : nodes.find? (fun n => n.id == i0) with
        | none =>
          rw [hfind] at hg
          exact ih _ _ _ g hg
        | some node =>
          rw [hfind] at hg
          rcases ih _ _ _ g hg with hmem | hid
          · rcases List.mem_append.mp hmem with hmem2 | hmem2
            · exact Or.inl hmem2
            · rw [List.mem_singleton] at hmem2
              subst hmem2
              exact Or.inr (mem_id_map_of_find?_some hfind)
          · exact Or.inr hid

/-- `C3`: for every node and edge list — cycles included — `buildHierarchy`
returns a list in which every input node's id is the subject of exactly one
group, and every group's subject is an input node id: no node is duplicated
or omitted. -/
theorem buildHierarchy_each_node_once (nodes : List Node) (edges : List Edge)
    (n : Node) (hn : n ∈ nodes) :
    countGroups (buildHierarchy nodes edges) n.id = 1 ∧
    ∀ g ∈ buildHierarchy nodes edges, g.nodeId ∈ nodes.map Node.id := by
  set fuel := nodes.length + (dfsUniverse nodes edges).length * (edges.length + 1)
    with hfuel
  set stack1 := (nodes.filter (fun n => ¬ n.id ∈ subClassChildIds edges)).map
    (fun r => (r.id, 0)) with hstack1
  set r1 := (dfsVisit nodes edges fuel [] stack1 []).1 with hr1
  set v1 := (dfsVisit nodes edges fuel [] stack1 []).2 with hv1
  have hbh : buildHierarchy nodes edges =
      (dfsVisit nodes edges fuel v1 (nodes.map (fun n => (n.id, 0))) r1).1 := rfl
  constructor
  · have hnid : n.id ∈ nodes.map Node.id := List.mem_map.mpr ⟨n, hn, rfl⟩
    have hcount1 := dfsVisit_count nodes edges fuel [] stack1 [] n.id
    rw [← hr1, ← hv1] at hcount1
    have hcount2 := dfsVisit_count nodes edges fuel v1
      (nodes.map (fun n => (n.id, 0))) r1 n.id
    have hU : n.id ∈ dfsUniverse nodes edges := List.mem_append_left _ hnid
    have hmem2 : (n.id, 0) ∈ nodes.map (fun n => (n.id, 0)) :=
      List.mem_map.mpr ⟨n, hn, rfl⟩
    have hfuel2 : dfsMeasure nodes edges v1 (nodes.map (fun n => (n.id, 0))) ≤ fuel := by
      unfold dfsMeasure
      rw [List.length_map]
      have h1 : ((dfsUniverse nodes edges).filter (fun y => ¬ y ∈ v1)).length ≤
          (dfsUniverse nodes edges).length := List.length_filter_le _ _
      have h2 := Nat.mul_le_mul_right (edges.length + 1) h1
      omega
    have hcover := dfsVisit_covers nodes edges fuel v1
      (nodes.map (fun n => (n.id, 0))) r1 hfuel2 n.id 0 hmem2 hU
    rw [hbh, hcount2]
    have h0 : countGroups ([] : List NodeGroup) n.id = 0 := rfl
    rw [h0] at hcount1
    by_cases hv1mem : n.id ∈ v1
    · rw [hcount1, if_pos ⟨hv1mem, by simp, hnid⟩,
        if_neg (by rintro ⟨-, h, -⟩; exact h hv1mem)]
    · rw [hcount1, if_neg (by rintro ⟨h, -, -⟩; exact hv1mem h),
        if_pos ⟨hcover, hv1mem, hnid⟩]
  · intro g hg
    rw [hbh] at hg
    rcases dfsVisit_groups nodes edges fuel _ _ _ g hg with hmem | hid
    · rcases dfsVisit_groups nodes edges fuel _ _ _ g hmem with hmem2 | hid2
      · cases hmem2
      · exact hid2
    · exact hid

/-- Witness for `C3`, on a graph whose `subClassOf` edges form the cycle
`Animal → Dog → Animal`. -/
theorem buildHierarchy_each_node_once_witness :
    countGroups (buildHierarchy [nAnimal, nDog]
      [{ id := "c1", source := "n1", target := some "n2", label := some "subClassOf" },
       { id := "c2", source := "n2", target := some "n1", label := some "subClassOf" }])
      nAnimal.id = 1 ∧
    ∀ g ∈ buildHierarchy [nAnimal, nDog]
      [{ id := "c1", source := "n1", target := some "n2", label := some "subClassOf" },
       { id := "c2", source := "n2", target := some "n1", label := some "subClassOf" }],
      g.nodeId ∈ [nAnimal, nDog].map Node.id :=
  buildHierarchy_each_node_once [nAnimal, nDog]
    [{ id := "c1", source := "n1", target := some "n2", label := some "subClassOf" },
     { id := "c2", source := "n2", target := some "n1", label := some "subClassOf" }]
    nAnimal (List.mem_cons_self _ _)

/-- `C7`: `extractActions` is total by construction, and a candidate that
fails to parse is skipped in place: a fenced block whose whole-block parse
throws falls back to its lines, a line that fails to parse contributes
nothing, and the surrounding lines of the same block and all other blocks
still contribute their actions, the inline fallback firing only when
nothing was produced at all. -/
theorem extractActions_skips_bad_candidate
    (p : String → Option JsonVal) (mb mi : String → List String)
    (content : String) (B1 B2 : List String) (b : String)
    (l1 l2 : List String) (bad : String)
    (hmb : mb content = B1 ++ b :: B2)
    (hpb : p (trimChars b) = none)
    (hlines : splitLines (trimChars b) = l1 ++ bad :: l2)
    (hpbad : p (trimChars bad) = none) :
    extractActions p mb mi content =
      (let rest := (B1.map (blockActions p)).flatten ++
          ((l1.map (lineAction p)).flatten ++ (l2.map (lineAction p)).flatten) ++
          (B2.map (blockActions p)).flatten
       if rest.isEmpty then ((mi content).map (inlineAction p)).flatten
       else rest) := by
  have hbad : lineAction p bad = [] := by
    unfold lineAction
    by_cases h : trimChars bad = "" ∨ ¬ headIsBrace (trimChars bad)
    · rw [if_pos h]
    · rw [if_neg h, hpbad]
  have hb : blockActions p b =
      (l1.map (lineAction p)).flatten ++ (l2.map (lineAction p)).flatten := by
    unfold blockActions
    simp only [hpb]
    unfold lineActions
    rw [hlines]
    rw [List.map_append, List.flatten_append, List.map_cons, List.flatten_cons, hbad]
    simp
  unfold extractActions
  rw [hmb]
  rw [List.map_append, List.flatten_append, List.map_cons, List.flatten_cons, hb]
  simp [List.append_assoc]

/-- Witness for `C7`: an unparsable block ahead of a good block does not
stop the good block's action from being emitted. -/
theorem extractActions_skips_bad_candidate_witness :
    extractActions pSample mbSample miSample "x" =
      (let rest := (([] : List String).map (blockActions pSample)).flatten ++
          ((([] : List String).map (lineAction pSample)).flatten ++
            (([] : List String).map (lineAction pSample)).flatten) ++
          ((["\x7b\"action\":\"add_node\",\"label\":\"Cat\"\x7d"] : List String).map
            (blockActions pSample)).flatten
       if rest.isEmpty then ((miSample "x").map (inlineAction pSample)).flatten
       else rest) :=
  extractActions_skips_bad_candidate pSample mbSample miSample "x"
    [] ["\x7b\"action\":\"add_node\",\"label\":\"Cat\"\x7d"] "notjson" [] [] "notjson"
    rfl
    (by rw [show trimChars "notjson" = "notjson" from by decide]; simp [pSample])
    (by decide)
    (by rw [show trimChars "notjson" = "notjson" from by decide]; simp [pSample])

theorem storeFrame_writeN {σ0 σ : Store} (h : StoreFrame σ0 σ) {hw : Nat}
    (hge : σ0.nodeCells.length ≤ hw) (xs : List Node) :
    StoreFrame σ0 (σ.writeN hw xs) := by
  obtain ⟨h1, h2, h3, h4⟩ := h
  refine ⟨by simpa [Store.writeN] using h1, h2, ?_, h4⟩
  intro i hi
  rw [← h3 i hi]
  have hne : i ≠ hw := by omega
  simp [Store.writeN, List.getD_eq_getElem?_getD, List.getElem?_set_ne (Ne.symm hne)]

theorem storeFrame_writeE {σ0 σ : Store} (h : StoreFrame σ0 σ) {hw : Nat}
    (hge : σ0.edgeCells.length ≤ hw) (xs : List Edge) :
    StoreFrame σ0 (σ.writeE hw xs) := by
  obtain ⟨h1, h2, h3, h4⟩ := h
  refine ⟨h1, by simpa [Store.writeE] using h2, h3, ?_⟩
  intro i hi
  rw [← h4 i hi]
  have hne : i ≠ hw := by omega
  simp [Store.writeE, List.getD_eq_getElem?_getD, List.getElem?_set_ne (Ne.symm hne)]

theorem storeFrame_allocN {σ0 σ : Store} (h : StoreFrame σ0 σ) (xs : List Node) :
    StoreFrame σ0 (σ.allocN xs).1 := by
  obtain ⟨h1, h2, h3, h4⟩ := h
  refine ⟨by simp [Store.allocN]; omega, h2, ?_, h4⟩
  intro i hi
  rw [← h3 i hi]
  have hlt : i < σ.nodeCells.length := by omega
  simp [Store.allocN, List.getD_eq_getElem?_getD, List.getElem?_append, hlt]

theorem storeFrame_allocE {σ0 σ : Store} (h : StoreFrame σ0 σ) (xs : List Edge) :
    StoreFrame σ0 (σ.allocE xs).1 := by
  obtain ⟨h1, h2, h3, h4⟩ := h
  refine ⟨h1, by simp [Store.allocE]; omega, h3, ?_⟩
  intro i hi
  rw [← h4 i hi]
  have hlt : i < σ.edgeCells.length := by omega
  simp [Store.allocE, List.getD_eq_getElem?_getD, List.getElem?_append, hlt]

theorem stApplyAction_inv (ids : Nat → String) (σ0 : Store) (st : StState)
    (a : ChatAction)
    (hS : StoreFrame σ0 st.σ) (hH : HandlesFresh σ0 st) :
    StoreFrame σ0 (stApplyAction ids st a).σ ∧
      HandlesFresh σ0 (stApplyAction ids st a) := by
  unfold stApplyAction
  split
  · unfold stAddNode
    repeat' ((try dsimp only); split)
    all_goals first
      | exact ⟨hS, hH⟩
      | exact ⟨storeFrame_writeN hS hH.1 _, hH⟩
      | exact ⟨storeFrame_writeE (storeFrame_writeN hS hH.1 _) hH.2 _, hH⟩
  · unfold stRemoveNode
    repeat' ((try dsimp only); split)
    all_goals first
      | exact ⟨hS, hH⟩
      | exact ⟨storeFrame_allocE (storeFrame_allocN hS _) _, hS.1, hS.2.1⟩
  · unfold stAddEdge
    repeat' ((try dsimp only); split)
    all_goals first
      | exact ⟨hS, hH⟩
      | exact ⟨storeFrame_writeE hS hH.2 _, hH⟩
  · unfold stRemoveEdge
    repeat' ((try dsimp only); split)
    all_goals first
      | exact ⟨hS, hH⟩
      | exact ⟨storeFrame_allocE hS _, hH.1, hS.2.1⟩
  · unfold stAddProperty
    repeat' ((try dsimp only); split)
    all_goals first
      | exact ⟨hS, hH⟩
      | exact ⟨storeFrame_writeN hS hH.1 _, hH⟩
      | exact ⟨storeFrame_writeE hS hH.2 _, hH⟩
      | exact ⟨storeFrame_writeE (storeFrame_writeN hS hH.1 _) hH.2 _, hH⟩
  · exact ⟨hS, hH⟩

theorem foldl_stApplyAction_inv (ids : Nat → String) (σ0 : Store)
    (actions : List ChatAction) :
    ∀ st : StState, StoreFrame σ0 st.σ → HandlesFresh σ0 st →
      StoreFrame σ0 (actions.foldl (stApplyAction ids) st).σ ∧
        HandlesFresh σ0 (actions.foldl (stApplyAction ids) st) := by
  induction actions with
  | nil => intro st hS hH; exact ⟨hS, hH⟩
  | cons a rest ih =>
    intro st hS hH
    obtain ⟨hS1, hH1⟩ := stApplyAction_inv ids σ0 st a hS hH
    exact ih _ hS1 hH1

/-- `C8`: the store-level `applyActions` never touches the caller's
arrays — after the batch, the cells the input handles point at read
exactly as before, and the returned working arrays live in fresh cells
distinct from the inputs. -/
theorem applyActionsST_frame (ids : Nat → String) (σ : Store) (hN hE : Nat)
    (actions : List ChatAction)
    (hN0 : hN < σ.nodeCells.length) (hE0 : hE < σ.edgeCells.length) :
    (applyActionsST ids σ hN hE actions).1.readN hN = σ.readN hN ∧
    (applyActionsST ids σ hN hE actions).1.readE hE = σ.readE hE ∧
    (applyActionsST ids σ hN hE actions).2.1 ≠ hN ∧
    (applyActionsST ids σ hN hE actions).2.2 ≠ hE := by
  have hS0 : StoreFrame σ ((σ.allocN (σ.readN hN)).1.allocE
      ((σ.allocN (σ.readN hN)).1.readE hE)).1 :=
    storeFrame_allocE (storeFrame_allocN ⟨Nat.le_refl _, Nat.le_refl _,
      fun _ _ => rfl, fun _ _ => rfl⟩ _) _
  have hH0 : HandlesFresh σ ⟨((σ.allocN (σ.readN hN)).1.allocE
      ((σ.allocN (σ.readN hN)).1.readE hE)).1,
      (σ.allocN (σ.readN hN)).2,
      ((σ.allocN (σ.readN hN)).1.allocE ((σ.allocN (σ.readN hN)).1.readE hE)).2,
      0⟩ := ⟨Nat.le_refl _, Nat.le_refl _⟩
  obtain ⟨hS, hH⟩ := foldl_stApplyAction_inv ids σ actions _ hS0 hH0
  refine ⟨?_, ?_, ?_, ?_⟩
  · exact hS.2.2.1 hN hN0
  · exact hS.2.2.2 hE hE0
  · exact fun he => absurd hN0 (by rw [← he]; exact not_lt.mpr hH.1)
  · exact fun he => absurd hE0 (by rw [← he]; exact not_lt.mpr hH.2)

/-- Witness for `C8`: a batch that rewrites the graph heavily leaves the
caller's cells intact. -/
theorem applyActionsST_frame_witness :
    (applyActionsST ids0 ⟨[[nAnimal, nDog]], [[eSub]]⟩ 0 0
      [{ action := "add_property", «class» := some "Dog", property := some "breed" },
       { action := "remove_node", label := some "Animal" }]).1.readN 0 =
      Store.readN ⟨[[nAnimal, nDog]], [[eSub]]⟩ 0 ∧
    (applyActionsST ids0 ⟨[[nAnimal, nDog]], [[eSub]]⟩ 0 0
      [{ action := "add_property", «class» := some "Dog", property := some "breed" },
       { action := "remove_node", label := some "Animal" }]).1.readE 0 =
      Store.readE ⟨[[nAnimal, nDog]], [[eSub]]⟩ 0 ∧
    (applyActionsST ids0 ⟨[[nAnimal, nDog]], [[eSub]]⟩ 0 0
      [{ action := "add_property", «class» := some "Dog", property := some "breed" },
       { action := "remove_node", label := some "Animal" }]).2.1 ≠ 0 ∧
    (applyActionsST ids0 ⟨[[nAnimal, nDog]], [[eSub]]⟩ 0 0
      [{ action := "add_property", «class» := some "Dog", property := some "breed" },
       { action := "remove_node", label := some "Animal" }]).2.2 ≠ 0 :=
  applyActionsST_frame ids0 ⟨[[nAnimal, nDog]], [[eSub]]⟩ 0 0 _
    (by decide) (by decide)

end OntologyEditor
